import Mathlib

/-!
Verification model of the directory/file synchronization utility
(`tools/efrotools/sync.py`): the marker codec (`add_marker`,
`get_dst_file_info`), the filename eligibility predicate
(`_valid_filename`) and the reconciliation driver (`sync_paths`),
shallowly embedded over an explicit filesystem state.

The content digest (`string_hash` in the source, an md5 digest rendered
as a decimal integer string) is an external hashing primitive; every
definition is parameterized by it (`h : String -> String`), and theorems
that depend on the shape of digests assume `HashClean h` (digest strings
contain no line-break characters and no letter matching the marker tag),
which the decimal rendering of md5 satisfies.
-/

set_option autoImplicit false

deriving instance DecidableEq for Except

/-- The line-break characters recognized by Python `str.splitlines`:
`\n`, `\r`, `\v`, `\f`, FS, GS, RS, NEL, LINE SEPARATOR, PARAGRAPH SEPARATOR
(`\r\n` is handled as a unit by `splitlinesAux`). -/
def isLineBreak (c : Char) : Bool :=
  c == '\n' || c == '\r' || c == Char.ofNat 0x0b || c == Char.ofNat 0x0c ||
  c == Char.ofNat 0x1c || c == Char.ofNat 0x1d || c == Char.ofNat 0x1e ||
  c == Char.ofNat 0x85 || c == Char.ofNat 0x2028 || c == Char.ofNat 0x2029

/-- Worker for `splitlines`: `cur` is the reversed current line; a `\r`
directly followed by `\n` counts as a single line boundary. -/
def splitlinesAux : List Char → List Char → List String
  | [], cur => if cur.isEmpty then [] else [String.mk cur.reverse]
  | c :: rest, cur =>
    if c = '\r' then
      match rest with
      | [] => [String.mk cur.reverse]
      | d :: rest2 =>
        if d = '\n' then String.mk cur.reverse :: splitlinesAux rest2 []
        else String.mk cur.reverse :: splitlinesAux (d :: rest2) []
    else if isLineBreak c then String.mk cur.reverse :: splitlinesAux rest []
    else splitlinesAux rest (c :: cur)

/-- Python `str.splitlines()`. -/
def splitlines (s : String) : List String :=
  splitlinesAux s.data []

/-- Python `'\n'.join(lines)`. -/
def joinNL : List String → String
  | [] => ""
  | [u] => u
  | u :: v :: rest => u ++ "\n" ++ joinNL (v :: rest)

/-- Char-list version of "is `as` an initial segment of `bs`". -/
def charsLead : List Char → List Char → Bool
  | [], _ => true
  | _ :: _, [] => false
  | a :: as, b :: bs => a == b && charsLead as bs

/-- Does `sub` occur as a contiguous run inside `l` (Python `sub in s`)? -/
def charsContain (sub : List Char) : List Char → Bool
  | [] => sub.isEmpty
  | c :: rest => charsLead sub (c :: rest) || charsContain sub rest

/-- Python `sub in s` on strings. -/
def containsStr (s sub : String) : Bool :=
  charsContain sub.data s.data

/-- Worker for `pySplit`: the separator is `c0 :: sep` (guaranteed
nonempty); `cur` is the reversed current chunk. `fuel` bounds the number
of scanning steps; each step consumes at least one character, so
starting it at the input's length (as `pySplit` does) never exhausts it
and the `0` fallback is unreachable. -/
def pySplitAux (c0 : Char) (sep : List Char) : Nat → List Char → List Char → List (List Char)
  | _, [], cur => [cur.reverse]
  | 0, l, cur => [cur.reverse ++ l]
  | fuel + 1, c :: rest, cur =>
    if charsLead (c0 :: sep) (c :: rest) then
      cur.reverse :: pySplitAux c0 sep fuel (rest.drop sep.length) []
    else
      pySplitAux c0 sep fuel rest (c :: cur)

/-- Python `s.split(sep)` for a nonempty separator (the only use in the
source is the constant `'EFRO_SYNC_HASH='`; Python rejects an empty
separator, modelled here as the identity split). -/
def pySplit (sep s : String) : List String :=
  match sep.data with
  | [] => [s]
  | c0 :: sepRest => (pySplitAux c0 sepRest s.data.length s.data []).map String.mk

/-- Python `s.endswith(suf)`. -/
def strEndsWith (s suf : String) : Bool :=
  charsLead suf.data.reverse s.data.reverse

/-- Python `s.startswith(pre)`. -/
def strStartsWith (s pre : String) : Bool :=
  charsLead pre.data s.data

/-- Python `os.path.basename` (POSIX): the part after the last `/`. -/
def pyBasename (fname : String) : String :=
  String.mk ((fname.data.reverse.takeWhile (fun c => c ≠ '/')).reverse)

/-- `'\n'.join(s.splitlines()) + '\n'`: the shape every marker-stripped
destination body has. A string equal to its own normalization is called
normalized. -/
def normalizeContent (s : String) : String :=
  joinNL (splitlines s) ++ "\n"

/-- A string is normalized when splitting it into lines and re-joining
with a trailing newline reproduces it exactly. -/
def Normalized (s : String) : Prop :=
  normalizeContent s = s

instance decNormalized (s : String) : Decidable (Normalized s) :=
  inferInstanceAs (Decidable (normalizeContent s = s))

/-- Structured stand-ins for the exceptions `sync.py` raises (and for the
uncaught `IndexError` its indexing can produce). -/
inductive SyncErr where
  /-- `ValueError('sync_paths cannot be called in CHECK mode')`. -/
  | checkModeCall : SyncErr
  /-- `ValueError('src path is not a dir or file: ...')`. -/
  | badSrcPath : List String → SyncErr
  /-- `ValueError('... is not a simple filename.')` from `_valid_filename`. -/
  | notSimpleFilename : String → SyncErr
  /-- `ValueError('provided sync-path ... is not syncable')`. -/
  | notSyncable : List String → SyncErr
  /-- `RuntimeError('Invalid src file: ...')`. -/
  | invalidSrcFile : List String → SyncErr
  /-- `RuntimeError('Attempting to sync a file that is itself synced.')`. -/
  | alreadySynced : SyncErr
  /-- `ValueError('no lines found in ...')` from `get_dst_file_info`. -/
  | noLines : SyncErr
  /-- `ValueError('no EFRO_SYNC_HASH found in ...')` from `get_dst_file_info`. -/
  | noMarker : SyncErr
  /-- An uncaught Python `IndexError` (out-of-range list indexing). -/
  | indexError : SyncErr
  /-- `RuntimeError('both src and dst sync files changed: ...')`. -/
  | diverged : List String → List String → SyncErr
  /-- `RuntimeError('sync dst file(s) changed since last sync: ...')`. -/
  | changedDstFiles : List (List String) → SyncErr
  /-- `RuntimeError('sync dst file changed since last sync: ...')` from `check_path`. -/
  | checkChanged : List String → SyncErr
deriving DecidableEq, Repr

/-- The guard of `add_marker`:
`len(lines) > 1 and 'EFRO_SYNC_HASH=' in lines[1]`. -/
def selfMarked (s : String) : Bool :=
  decide (1 < (splitlines s).length) &&
    containsStr ((splitlines s).getD 1 "") "EFRO_SYNC_HASH="

/-- `add_marker(src_proj, srcdata)`: refuse already-marked content, then
prepend the three-line header and re-join the lines with a trailing
newline. -/
def add_marker (h : String → String) (src_proj srcdata : String) : Except SyncErr String :=
  if selfMarked srcdata then Except.error SyncErr.alreadySynced
  else
    Except.ok (joinNL
      (("# Synced from " ++ src_proj ++ ".\n# EFRO_SYNC_HASH=" ++ h srcdata ++ "\n#")
        :: splitlines srcdata) ++ "\n")

/-- `get_dst_file_info` on the destination file's content (the file read
itself is performed by the caller in this model): extract the embedded
hash from line 2, strip the first three lines, and re-hash the remainder.
`dstlines[1]` and `split(...)[1]` are modelled with `List.get?`, so an
out-of-range index surfaces as `SyncErr.indexError` exactly where Python
would raise `IndexError`. -/
def get_dst_file_info (h : String → String) (dstdata : String) :
    Except SyncErr (String × String × String) :=
  let dstlines := splitlines dstdata
  if dstlines = [] then Except.error SyncErr.noLines
  else
    match dstlines.get? 1 with
    | none => Except.error SyncErr.indexError
    | some line1 =>
      if containsStr line1 "EFRO_SYNC_HASH" = false then Except.error SyncErr.noMarker
      else
        match (pySplit "EFRO_SYNC_HASH=" line1).get? 1 with
        | none => Except.error SyncErr.indexError
        | some marker_hash =>
          let dstbody := joinNL (dstlines.drop 3) ++ "\n"
          Except.ok (marker_hash, h dstbody, dstbody)

/-- The exact string `add_marker` produces on unmarked content. -/
def markedOf (h : String → String) (src_proj srcdata : String) : String :=
  joinNL
    (("# Synced from " ++ src_proj ++ ".\n# EFRO_SYNC_HASH=" ++ h srcdata ++ "\n#")
      :: splitlines srcdata) ++ "\n"

/-- The fixed allow-list of exact filenames in `_valid_filename`. -/
def allowList : List String :=
  ["requirements.txt", "pylintrc", "clang-format", "pycheckers",
   "style.yapf", "test_task_bin", ".editorconfig"]

/-- `_valid_filename(fname)`: reject non-simple names, accept the fixed
allow-list, otherwise accept `.py`/`.pyi` files not containing the
transient-editor marker `flycheck_`. -/
def _valid_filename (fname : String) : Except SyncErr Bool :=
  if pyBasename fname ≠ fname then Except.error (SyncErr.notSimpleFilename fname)
  else if fname ∈ allowList then Except.ok true
  else
    Except.ok ((strEndsWith fname ".py" || strEndsWith fname ".pyi") &&
      !(containsStr fname "flycheck_"))

/-- Filesystem paths, as lists of components (POSIX components contain
no `/`). -/
abbrev FPath := List String

/-- Is `p` an initial segment of `q` (so `q` lies at or under `p`)? -/
def pathLeads : FPath → FPath → Bool
  | [], _ => true
  | _ :: _, [] => false
  | a :: as, b :: bs => a = b && pathLeads as bs

/-- First-match lookup in an association list of files. -/
def findFile : List (FPath × String) → FPath → Option String
  | [], _ => none
  | (q, c) :: rest, p => if q = p then some c else findFile rest p

/-- Create-or-truncate write: replace the first entry at `p`, or append. -/
def setFile : List (FPath × String) → FPath → String → List (FPath × String)
  | [], p, c => [(p, c)]
  | (q, d) :: rest, p, c =>
    if q = p then (p, c) :: rest else (q, d) :: setFile rest p c

/-- A filesystem snapshot: regular files (path to text content) and the
directories that exist (beyond those implied by file paths). -/
structure FS where
  files : List (FPath × String)
  dirs : List FPath
deriving Repr

/-- `FPath.is_file()`. -/
def isFile (fs : FS) (p : FPath) : Bool :=
  (findFile fs.files p).isSome

/-- `FPath.is_dir()` / directory existence: either explicitly recorded or
implied by a file strictly below `p`. -/
def isDir (fs : FS) (p : FPath) : Bool :=
  fs.dirs.contains p || fs.files.any (fun q => pathLeads p q.1 && !(q.1 = p : Bool))

/-- `os.path.exists`. -/
def pathExists (fs : FS) (p : FPath) : Bool :=
  isFile fs p || isDir fs p

/-- Observable filesystem effects of a run. -/
inductive Event where
  | wrote : FPath → String → Event
  | madeDir : FPath → Event
  | removedTree : FPath → Event
deriving DecidableEq, Repr

/-- Mutable state threaded through `sync_paths`: the filesystem, the
chronological effect log, and `changed_error_dst_files`. -/
structure RunSt where
  fs : FS
  log : List Event
  changed : List FPath
deriving Repr

/-- Whole-file write (`open('w')` + `write`), with its log event. -/
def doWrite (st : RunSt) (p : FPath) (c : String) : RunSt :=
  { st with fs := { st.fs with files := setFile st.fs.files p c },
            log := st.log ++ [Event.wrote p c] }

/-- The nonempty initial segments of `p`, shortest first. -/
def pathPrefixes (p : FPath) : List FPath :=
  (List.range p.length).map (fun k => p.take (k + 1))

/-- `dstfile.parent.mkdir(parents=True, exist_ok=True)`: create every
missing ancestor directory of `dstfile`, logging each creation. -/
def mkdirParents (st : RunSt) (dstfile : FPath) : RunSt :=
  (pathPrefixes dstfile.dropLast).foldl
    (fun s pre =>
      if isDir s.fs pre then s
      else { s with fs := { s.fs with dirs := s.fs.dirs ++ [pre] },
                    log := s.log ++ [Event.madeDir pre] }) st

/-- The final component of a path (`FPath.name` / the walk's `fname`). -/
def lastName (p : FPath) : String :=
  p.getLastD ""

/-- The source files found by `os.walk(src)`: every file strictly under
`src`, in recorded order. -/
def walkSrcFiles (fs : FS) (src : FPath) : List FPath :=
  (fs.files.map Prod.fst).filter (fun p => pathLeads src p && !(p = src : Bool))

/-- The walk of a source directory (lines building `allpaths`): filter
each file name through `_valid_filename` (whose `ValueError` propagates)
and pair it with `dst / relpath`. -/
def discoverDir (src dst : FPath) : List FPath → Except SyncErr (List (FPath × FPath))
  | [] => Except.ok []
  | p :: rest =>
    match _valid_filename (lastName p) with
    | Except.error e => Except.error e
    | Except.ok b =>
      match discoverDir src dst rest with
      | Except.error e => Except.error e
      | Except.ok l =>
        Except.ok (if b then (p, dst ++ p.drop src.length) :: l else l)

/-- Building `allpaths`: a single source file must itself pass
`_valid_filename`; a source directory is walked. -/
def discover (fs : FS) (src dst : FPath) : Except SyncErr (List (FPath × FPath)) :=
  if isFile fs src then
    match _valid_filename (lastName src) with
    | Except.error e => Except.error e
    | Except.ok true => Except.ok [(src, dst)]
    | Except.ok false => Except.error (SyncErr.notSyncable src)
  else discoverDir src dst (walkSrcFiles fs src)

/-- The modes of `sync.py`. -/
inductive Mode where
  | pull | full | list | force | check
deriving DecidableEq, Repr

/-- The shared pull/refresh action: in LIST mode only report, otherwise
write `add_marker(src_proj, srcdata)` to the destination (an
`add_marker` failure aborts before anything is written). -/
def pullAction (h : String → String) (srcProj : String) (mode : Mode)
    (dstfile : FPath) (srcdata : String) (st : RunSt) : Except SyncErr Unit × RunSt :=
  if mode = Mode.list then (Except.ok (), st)
  else
    match add_marker h srcProj srcdata with
    | Except.error e => (Except.error e, st)
    | Except.ok marked => (Except.ok (), doWrite st dstfile marked)

/-- One iteration of the `for srcfile, dstfile in allpaths` loop of
`sync_paths`. `srcfile.is_file()` plus the subsequent read are modelled
as one lookup, as are `dstfile.is_file()` and `get_dst_file_info`'s
read; the dst lookup happens before the FORCE test, which is harmless
because reads have no effect. On an error the state reached so far is
returned alongside it (Python mutates as it goes and then raises). -/
def syncPair (h : String → String) (srcProj : String) (mode : Mode)
    (srcfile dstfile : FPath) (st0 : RunSt) : Except SyncErr Unit × RunSt :=
  match findFile st0.fs.files srcfile with
  | none => (Except.error (SyncErr.invalidSrcFile srcfile), st0)
  | some srcdata =>
    let st := mkdirParents st0 dstfile
    let src_hash := h srcdata
    match findFile st.fs.files dstfile with
    | none => pullAction h srcProj mode dstfile srcdata st
    | some dstraw =>
      if mode = Mode.force then pullAction h srcProj mode dstfile srcdata st
      else
        match get_dst_file_info h dstraw with
        | Except.error e => (Except.error e, st)
        | Except.ok (marker_hash, dst_hash, dstdata) =>
          if src_hash ≠ marker_hash ∧ dst_hash = marker_hash then
            pullAction h srcProj mode dstfile srcdata st
          else if src_hash = marker_hash ∧ dst_hash ≠ marker_hash then
            if mode = Mode.list then (Except.ok (), st)
            else if mode = Mode.full then
              let st1 := doWrite st srcfile dstdata
              match add_marker h srcProj dstdata with
              | Except.error e => (Except.error e, st1)
              | Except.ok marked => (Except.ok (), doWrite st1 dstfile marked)
            else (Except.ok (), { st with changed := st.changed ++ [dstfile] })
          else if marker_hash ≠ src_hash ∧ marker_hash ≠ dst_hash then
            if src_hash = dst_hash then
              pullAction h srcProj mode dstfile srcdata st
            else (Except.error (SyncErr.diverged srcfile dstfile), st)
          else (Except.ok (), st)

/-- The whole per-pair loop; an exception aborts it with the state
reached so far. -/
def syncLoop (h : String → String) (srcProj : String) (mode : Mode) :
    List (FPath × FPath) → RunSt → Except SyncErr Unit × RunSt
  | [], st => (Except.ok (), st)
  | (s, d) :: rest, st =>
    match syncPair h srcProj mode s d st with
    | (Except.error e, st1) => (Except.error e, st1)
    | (Except.ok _, st1) => syncLoop h srcProj mode rest st1

/-- Walk of the destination tree for orphan pruning: every directory
(recorded or implied) and file strictly under `root`. -/
def walkEntries (fs : FS) (root : FPath) : List FPath :=
  ((fs.dirs ++ (fs.files.map Prod.fst).flatMap (fun p =>
      (List.range (p.length - 1)).map (fun k => p.take (k + 1)))).dedup
    ++ fs.files.map Prod.fst).filter
    (fun p => pathLeads root p && !(p = root : Bool))

/-- The `continue` guard of the prune walk: hidden names, and anything
whose directory path or name mentions `__pycache__`. -/
def skipEntry (p : FPath) : Bool :=
  strStartsWith (lastName p) "." ||
    (p.dropLast).any (fun comp => containsStr comp "__pycache__") ||
    containsStr (lastName p) "__pycache__"

/-- `rm -rf`: drop the path and its whole subtree. -/
def removeTree (fs : FS) (p : FPath) : FS :=
  { files := fs.files.filter (fun q => !(pathLeads p q.1)),
    dirs := fs.dirs.filter (fun d => !(pathLeads p d)) }

/-- Orphan pruning (the `if dst.is_dir()` block): collect destination
entries with no source counterpart, then remove each survivor (the walk
is computed once; existence is re-checked against the live state, since
removing a directory removes what is under it). LIST mode only reports. -/
def pruneOrphans (mode : Mode) (src dst : FPath) (st : RunSt) : RunSt :=
  if isDir st.fs dst then
    ((walkEntries st.fs dst).filter
      (fun p => !(skipEntry p) && !(pathExists st.fs (src ++ p.drop dst.length)))).foldl
      (fun s kp =>
        if pathExists s.fs kp then
          if mode = Mode.list then s
          else { s with fs := removeTree s.fs kp,
                        log := s.log ++ [Event.removedTree kp] }
        else s) st
  else st

/-- `sync_paths(src_proj, src, dst, mode)` over a filesystem snapshot:
mode guard, source-shape guard, pair discovery, the per-pair loop,
orphan pruning, and the final aggregate `changed_error_dst_files`
error. Returns the result (count of pairs, or the first exception)
together with the final state and effect log. -/
def sync_paths (h : String → String) (srcProj : String) (src dst : FPath)
    (mode : Mode) (fs : FS) : Except SyncErr Nat × RunSt :=
  let st0 : RunSt := { fs := fs, log := [], changed := [] }
  if mode = Mode.check then (Except.error SyncErr.checkModeCall, st0)
  else if !(isDir fs src || isFile fs src) then
    (Except.error (SyncErr.badSrcPath src), st0)
  else
    match discover fs src dst with
    | Except.error e => (Except.error e, st0)
    | Except.ok allpaths =>
      match syncLoop h srcProj mode allpaths st0 with
      | (Except.error e, st) => (Except.error e, st)
      | (Except.ok _, st) =>
        let st2 := pruneOrphans mode src dst st
        if st2.changed = [] then (Except.ok allpaths.length, st2)
        else (Except.error (SyncErr.changedDstFiles st2.changed), st2)

/-- `check_path(dst)`: walk the destination, decode every eligible file,
and fail on the first whose recomputed hash differs from its marker. -/
def check_path (h : String → String) (fs : FS) (dst : FPath) : Except SyncErr Nat :=
  let rec go : List FPath → Except SyncErr Unit
    | [] => Except.ok ()
    | p :: rest =>
      match findFile fs.files p with
      | none => Except.error (SyncErr.invalidSrcFile p)
      | some raw =>
        match get_dst_file_info h raw with
        | Except.error e => Except.error e
        | Except.ok (marker_hash, dst_hash, _) =>
          if marker_hash ≠ dst_hash then Except.error (SyncErr.checkChanged p)
          else go rest
  match discoverDir dst dst (walkSrcFiles fs dst) with
  | Except.error e => Except.error e
  | Except.ok pairs =>
    match go (pairs.map Prod.fst) with
    | Except.error e => Except.error e
    | Except.ok _ => Except.ok pairs.length

/-! ### Basic facts about the line machinery -/

theorem String_mk_data (s : String) : String.mk s.data = s := rfl

theorem splitlinesAux_nil (cur : List Char) :
    splitlinesAux [] cur = if cur.isEmpty then [] else [String.mk cur.reverse] :=
  splitlinesAux.eq_1 cur

theorem splitlinesAux_cr_nil (cur : List Char) :
    splitlinesAux ['\r'] cur = [String.mk cur.reverse] := by
  rw [splitlinesAux.eq_2, if_pos rfl]

theorem splitlinesAux_crlf (rest cur : List Char) :
    splitlinesAux ('\r' :: '\n' :: rest) cur =
      String.mk cur.reverse :: splitlinesAux rest [] := by
  rw [splitlinesAux.eq_3, if_pos rfl, if_pos rfl]

theorem splitlinesAux_cr_cons (d : Char) (rest cur : List Char) (hd : ¬ d = '\n') :
    splitlinesAux ('\r' :: d :: rest) cur =
      String.mk cur.reverse :: splitlinesAux (d :: rest) [] := by
  rw [splitlinesAux.eq_3, if_pos rfl, if_neg hd]

theorem splitlinesAux_cons_lb (c : Char) (rest cur : List Char)
    (hc : ¬ c = '\r') (hlb : isLineBreak c = true) :
    splitlinesAux (c :: rest) cur = String.mk cur.reverse :: splitlinesAux rest [] := by
  cases rest with
  | nil => rw [splitlinesAux.eq_2, if_neg hc, if_pos hlb]
  | cons d rest2 => rw [splitlinesAux.eq_3, if_neg hc, if_pos hlb]

theorem splitlinesAux_cons_nolb (c : Char) (rest cur : List Char)
    (h : isLineBreak c = false) :
    splitlinesAux (c :: rest) cur = splitlinesAux rest (c :: cur) := by
  have hc : ¬ c = '\r' := by rintro rfl; simp [isLineBreak] at h
  cases rest with
  | nil => rw [splitlinesAux.eq_2, if_neg hc, if_neg (by simp [h])]
  | cons d rest2 => rw [splitlinesAux.eq_3, if_neg hc, if_neg (by simp [h])]

theorem splitlinesAux_cons_nl (rest cur : List Char) :
    splitlinesAux ('\n' :: rest) cur = String.mk cur.reverse :: splitlinesAux rest [] :=
  splitlinesAux_cons_lb '\n' rest cur (by decide) (by decide)

/-- Every line produced by `splitlinesAux` is free of line breaks,
provided the accumulated partial line is. -/
theorem splitlinesAux_mem_nolb (l cur : List Char) :
    (∀ c ∈ cur, isLineBreak c = false) →
    ∀ u ∈ splitlinesAux l cur, ∀ c ∈ u.data, isLineBreak c = false := by
  induction l, cur using splitlinesAux.induct with
  | case1 cur hemp =>
    intro hcur u hu
    rw [splitlinesAux_nil, if_pos hemp] at hu
    simp at hu
  | case2 cur hemp =>
    intro hcur u hu
    rw [splitlinesAux_nil, if_neg hemp] at hu
    simp only [List.mem_singleton] at hu
    subst hu
    intro c hc
    exact hcur c (by simpa using hc)
  | case3 cur =>
    intro hcur u hu
    rw [splitlinesAux_cr_nil] at hu
    simp only [List.mem_singleton] at hu
    subst hu
    intro c hc
    exact hcur c (by simpa using hc)
  | case4 cur rest2 ih =>
    intro hcur u hu
    rw [splitlinesAux_crlf] at hu
    rcases List.mem_cons.mp hu with hu | hu
    · subst hu; intro c hc; exact hcur c (by simpa using hc)
    · exact ih (by simp) u hu
  | case5 cur d rest2 hd ih =>
    intro hcur u hu
    rw [splitlinesAux_cr_cons d rest2 cur hd] at hu
    rcases List.mem_cons.mp hu with hu | hu
    · subst hu; intro c hc; exact hcur c (by simpa using hc)
    · exact ih (by simp) u hu
  | case6 c rest cur hc hlb ih =>
    intro hcur u hu
    rw [splitlinesAux_cons_lb c rest cur hc hlb] at hu
    rcases List.mem_cons.mp hu with hu | hu
    · subst hu; intro c hc; exact hcur c (by simpa using hc)
    · exact ih (by simp) u hu
  | case7 c rest cur hc hlb ih =>
    intro hcur u hu
    have hlb' : isLineBreak c = false := by
      cases hb : isLineBreak c
      · rfl
      · exact absurd hb hlb
    rw [splitlinesAux_cons_nolb c rest cur hlb'] at hu
    refine ih ?_ u hu
    intro d hd
    rcases List.mem_cons.mp hd with hd | hd
    · subst hd; exact hlb'
    · exact hcur d hd

/-- Every line of `splitlines s` is free of line-break characters. -/
theorem splitlines_mem_nolb (s : String) :
    ∀ u ∈ splitlines s, ∀ c ∈ u.data, isLineBreak c = false :=
  splitlinesAux_mem_nolb s.data [] (by simp)

/-- Scanning a line-break-free block just accumulates it. -/
theorem splitlinesAux_append (l1 : List Char) :
    ∀ l2 cur : List Char, (∀ c ∈ l1, isLineBreak c = false) →
    splitlinesAux (l1 ++ l2) cur = splitlinesAux l2 (l1.reverse ++ cur) := by
  induction l1 with
  | nil => intro l2 cur _; simp
  | cons c rest ih =>
    intro l2 cur h
    have hc : isLineBreak c = false := h c (by simp)
    rw [List.cons_append, splitlinesAux_cons_nolb c (rest ++ l2) cur hc,
      ih l2 (c :: cur) (fun d hd => h d (by simp [hd]))]
    simp

/-- A string without line-break characters. -/
def NoLB (s : String) : Prop :=
  ∀ c ∈ s.data, isLineBreak c = false

theorem NoLB_append {a b : String} (ha : NoLB a) (hb : NoLB b) : NoLB (a ++ b) := by
  intro c hc
  rw [String.data_append] at hc
  rcases List.mem_append.mp hc with hc | hc
  · exact ha c hc
  · exact hb c hc

/-- Splitting the `\n`-join (plus trailing newline) of line-break-free
lines recovers exactly those lines. -/
theorem splitlines_joinNL (L : List String) (hne : L ≠ [])
    (h : ∀ u ∈ L, NoLB u) : splitlines (joinNL L ++ "\n") = L := by
  induction L with
  | nil => exact absurd rfl hne
  | cons u M ih =>
    cases M with
    | nil =>
      show splitlinesAux (u ++ "\n").data [] = [u]
      rw [String.data_append,
        splitlinesAux_append u.data "\n".data [] (h u (by simp)),
        show ("\n" : String).data = ['\n'] from rfl, splitlinesAux_cons_nl]
      simp [splitlinesAux_nil, String_mk_data]
    | cons v M2 =>
      show splitlinesAux (((u ++ "\n") ++ joinNL (v :: M2)) ++ "\n").data [] = u :: v :: M2
      rw [String.data_append, String.data_append, String.data_append,
        show ("\n" : String).data = ['\n'] from rfl, List.append_assoc,
        List.append_assoc,
        splitlinesAux_append u.data _ [] (h u (by simp)),
        List.singleton_append, splitlinesAux_cons_nl]
      rw [List.append_nil, List.reverse_reverse, String_mk_data]
      have := ih (by simp) (fun w hw => h w (by simp [hw]))
      rw [splitlines, String.data_append,
        show ("\n" : String).data = ['\n'] from rfl] at this
      rw [this]

theorem joinNL_glue (a b : String) (L : List String) :
    joinNL ((a ++ "\n" ++ b) :: L) = joinNL (a :: b :: L) := by
  cases L with
  | nil => rfl
  | cons w M =>
    show (a ++ "\n" ++ b) ++ "\n" ++ joinNL (w :: M) = a ++ "\n" ++ (b ++ "\n" ++ joinNL (w :: M))
    simp [String.append_assoc]

/-- The normalization of any `\n`-join of line-break-free lines is itself:
such strings are `Normalized`. -/
theorem normalized_joinNL (L : List String) (h : ∀ u ∈ L, NoLB u) :
    Normalized (joinNL L ++ "\n") := by
  cases L with
  | nil =>
    show normalizeContent "\n" = "\n"
    rfl
  | cons u M =>
    show normalizeContent (joinNL (u :: M) ++ "\n") = joinNL (u :: M) ++ "\n"
    rw [normalizeContent, splitlines_joinNL (u :: M) (by simp) h]

/-- Bodies produced by `get_dst_file_info` are always normalized. -/
theorem get_dst_body_normalized (h : String → String) (raw m dh body : String)
    (hd : get_dst_file_info h raw = Except.ok (m, dh, body)) :
    Normalized body ∧ dh = h body := by
  rw [get_dst_file_info] at hd
  simp only [] at hd
  split at hd
  · exact absurd hd (by simp)
  · split at hd
    · exact absurd hd (by simp)
    · split at hd
      · exact absurd hd (by simp)
      · split at hd
        · exact absurd hd (by simp)
        · simp only [Except.ok.injEq, Prod.mk.injEq] at hd
          obtain ⟨h1, h2, h3⟩ := hd
          subst h3
          constructor
          · exact normalized_joinNL _ (fun u hu =>
              fun c hc => splitlines_mem_nolb raw u (List.mem_of_mem_drop hu) c hc)
          · exact h2.symm

/-! ### Substring and split facts used by the marker codec -/

theorem charsLead_append_self (as bs : List Char) : charsLead as (as ++ bs) = true := by
  induction as with
  | nil => rfl
  | cons a rest ih => simp [charsLead, ih]

theorem charsContain_here (sub l : List Char) (h : charsLead sub l = true) :
    charsContain sub l = true := by
  cases l with
  | nil =>
    cases sub with
    | nil => rfl
    | cons a as => simp [charsLead] at h
  | cons c rest => simp [charsContain, h]

theorem charsContain_append_left (pre l sub : List Char) (h : charsLead sub l = true) :
    charsContain sub (pre ++ l) = true := by
  induction pre with
  | nil => exact charsContain_here sub l h
  | cons p ps ih => simp [charsContain, ih]

/-- Scanning text that never shows the separator's first character leaves
one chunk. -/
theorem pySplitAux_absent (c0 : Char) (sep : List Char) :
    ∀ (fuel : Nat) (l cur : List Char), l.length ≤ fuel →
    (∀ c ∈ l, ¬ c = c0) → pySplitAux c0 sep fuel l cur = [cur.reverse ++ l] := by
  intro fuel
  induction fuel with
  | zero =>
    intro l cur hf _
    cases l with
    | nil => simp [pySplitAux]
    | cons c rest => simp at hf
  | succ f ih =>
    intro l cur hf habs
    cases l with
    | nil => simp [pySplitAux]
    | cons c rest =>
      have hc : ¬ c = c0 := habs c (by simp)
      have hlead : charsLead (c0 :: sep) (c :: rest) = false := by
        simp [charsLead]
        intro hcc
        exact absurd hcc.symm hc
      rw [pySplitAux, if_neg (by simp [hlead])]
      rw [ih rest (c :: cur) (by simp only [List.length_cons] at hf; omega)
        (fun d hd => habs d (by simp [hd]))]
      simp

/-- Splitting the marker line `'# EFRO_SYNC_HASH=' ++ hs` on
`'EFRO_SYNC_HASH='` yields `['# ', hs]` whenever the digest `hs` avoids
the separator's initial `E`. -/
theorem pySplit_marker_line (hs : String) (habs : ∀ c ∈ hs.data, ¬ c = 'E') :
    pySplit "EFRO_SYNC_HASH=" ("# EFRO_SYNC_HASH=" ++ hs) = ["# ", hs] := by
  show (pySplitAux 'E' "FRO_SYNC_HASH=".data
      ("# EFRO_SYNC_HASH=" ++ hs).data.length
      ("# EFRO_SYNC_HASH=" ++ hs).data []).map String.mk = ["# ", hs]
  have hdata : ("# EFRO_SYNC_HASH=" ++ hs).data
      = '#' :: ' ' :: (('E' :: "FRO_SYNC_HASH=".data) ++ hs.data) := by
    rw [String.data_append]; rfl
  have h14 : ("FRO_SYNC_HASH=" : String).data.length = 14 := rfl
  have hlen : ("# EFRO_SYNC_HASH=" ++ hs).data.length = hs.data.length + 17 := by
    rw [hdata]
    simp only [List.length_cons, List.length_append, h14]
    omega
  rw [hlen, hdata]
  rw [show hs.data.length + 17 = Nat.succ (hs.data.length + 16) from by omega]
  rw [pySplitAux.eq_3, if_neg (by simp [charsLead])]
  rw [show hs.data.length + 16 = Nat.succ (hs.data.length + 15) from by omega]
  rw [pySplitAux.eq_3, if_neg (by simp [charsLead])]
  rw [show hs.data.length + 15 = Nat.succ (hs.data.length + 14) from by omega,
    List.cons_append]
  rw [pySplitAux.eq_3, if_pos (by
    simpa using charsLead_append_self ('E' :: "FRO_SYNC_HASH=".data) hs.data)]
  rw [show (("FRO_SYNC_HASH=".data ++ hs.data).drop "FRO_SYNC_HASH=".data.length)
        = hs.data from List.drop_left _ _]
  rw [pySplitAux_absent 'E' "FRO_SYNC_HASH=".data (hs.data.length + 14) hs.data []
    (by omega) habs]
  simp [String_mk_data]

/-! ### Decoding what `add_marker` encodes -/

/-- What the model assumes about the digest function: digests contain no
line-break characters and never contain the letter `E` (so they cannot
collide with the `EFRO_SYNC_HASH=` tag). The source digest, md5 rendered
as a decimal integer string, contains only the digits `0`-`9` and
satisfies both. -/
def HashClean (h : String → String) : Prop :=
  ∀ s, ∀ c ∈ (h s).data, isLineBreak c = false ∧ ¬ c = 'E'

instance decNoLB (s : String) : Decidable (NoLB s) :=
  inferInstanceAs (Decidable (∀ c ∈ s.data, isLineBreak c = false))

theorem add_marker_ok (h : String → String) (proj σ : String)
    (hm : selfMarked σ = false) :
    add_marker h proj σ = Except.ok (markedOf h proj σ) := by
  rw [add_marker, if_neg (by simp [hm])]
  rfl

theorem joinNL_glue_cons (x a b : String) (L : List String) :
    joinNL (x :: (a ++ "\n" ++ b) :: L) = joinNL (x :: a :: b :: L) := by
  show x ++ "\n" ++ joinNL ((a ++ "\n" ++ b) :: L) = x ++ "\n" ++ joinNL (a :: b :: L)
  rw [joinNL_glue]

/-- The string `add_marker` builds, reshaped as a `\n`-join of the three
header lines followed by the source's lines. -/
theorem markedOf_eq_join (h : String → String) (proj σ : String) :
    markedOf h proj σ =
      joinNL (("# Synced from " ++ proj ++ ".")
        :: ("# EFRO_SYNC_HASH=" ++ h σ) :: "#" :: splitlines σ) ++ "\n" := by
  have hassoc : "# Synced from " ++ proj ++ ".\n# EFRO_SYNC_HASH=" ++ h σ ++ "\n#"
      = ("# Synced from " ++ proj ++ ".") ++ "\n"
        ++ (("# EFRO_SYNC_HASH=" ++ h σ) ++ "\n" ++ "#") := by
    apply String.ext
    simp [String.data_append]
  rw [markedOf, hassoc, joinNL_glue, joinNL_glue_cons]

/-- Decoding a freshly encoded file recovers the embedded digest of the
original content and the normalized body with its recomputed digest. -/
theorem get_dst_file_info_markedOf (h : String → String) (proj σ : String)
    (hclean : HashClean h) (hproj : NoLB proj) :
    get_dst_file_info h (markedOf h proj σ) =
      Except.ok (h σ, h (normalizeContent σ), normalizeContent σ) := by
  have hsplit : splitlines (markedOf h proj σ) =
      ("# Synced from " ++ proj ++ ".")
        :: ("# EFRO_SYNC_HASH=" ++ h σ) :: "#" :: splitlines σ := by
    rw [markedOf_eq_join]
    apply splitlines_joinNL _ (by simp)
    intro u hu
    rcases List.mem_cons.mp hu with hu | hu
    · subst hu
      exact NoLB_append (NoLB_append (by decide) hproj) (by decide)
    rcases List.mem_cons.mp hu with hu | hu
    · subst hu
      exact NoLB_append (by decide) (fun c hc => (hclean σ c hc).1)
    rcases List.mem_cons.mp hu with hu | hu
    · subst hu
      decide
    · exact fun c hc => splitlines_mem_nolb σ u hu c hc
  have hcont : containsStr ("# EFRO_SYNC_HASH=" ++ h σ) "EFRO_SYNC_HASH" = true := by
    rw [containsStr, show ("# EFRO_SYNC_HASH=" ++ h σ).data
        = ['#', ' '] ++ ("EFRO_SYNC_HASH".data ++ ('=' :: (h σ).data)) from by
          rw [String.data_append]; rfl]
    exact charsContain_append_left _ _ _ (charsLead_append_self _ _)
  have hsplit1 := pySplit_marker_line (h σ) (fun c hc => (hclean σ c hc).2)
  rw [get_dst_file_info]
  simp only [hsplit, hcont, hsplit1]
  simp [hcont, hsplit1, normalizeContent]

/-! ### Filesystem facts -/

theorem findFile_setFile (l : List (FPath × String)) (p : FPath) (c : String) (q : FPath) :
    findFile (setFile l p c) q = if q = p then some c else findFile l q := by
  induction l with
  | nil =>
    simp only [setFile, findFile]
    by_cases h : q = p
    · subst h; simp
    · simp [h, Ne.symm h]
  | cons e rest ih =>
    obtain ⟨k, v⟩ := e
    by_cases hkp : k = p
    · subst hkp
      rw [setFile, if_pos rfl]
      by_cases hqp : q = k
      · subst hqp; simp [findFile]
      · simp [findFile, hqp, Ne.symm hqp]
    · rw [setFile, if_neg hkp]
      by_cases hkq : k = q
      · subst hkq
        simp [findFile, hkp, fun hh => hkp (hh : k = p)]
      · simp [findFile, hkq, ih]

theorem any_fst_setFile (l : List (FPath × String)) (p : FPath) (c : String)
    (f : FPath → Bool) :
    (setFile l p c).any (fun e => f e.1) = (l.any (fun e => f e.1) || f p) := by
  induction l with
  | nil => simp [setFile]
  | cons e rest ih =>
    obtain ⟨k, v⟩ := e
    by_cases hkp : k = p
    · subst hkp
      rw [setFile, if_pos rfl]
      cases hf : f k <;> simp [hf]
    · rw [setFile, if_neg hkp]
      simp [ih, Bool.or_assoc]

theorem pathLeads_refl (p : FPath) : pathLeads p p = true := by
  induction p with
  | nil => rfl
  | cons a rest ih => simp [pathLeads, ih]

theorem pathLeads_append (p q : FPath) : pathLeads p (p ++ q) = true := by
  induction p with
  | nil => rfl
  | cons a rest ih => simp [pathLeads, ih]

theorem pathLeads_append_cancel (a b c : FPath) :
    pathLeads (a ++ b) (a ++ c) = pathLeads b c := by
  induction a with
  | nil => rfl
  | cons x rest ih => simp [pathLeads, ih]

theorem eq_append_drop_of_pathLeads (p q : FPath) (h : pathLeads p q = true) :
    q = p ++ q.drop p.length := by
  induction p generalizing q with
  | nil => simp
  | cons a rest ih =>
    cases q with
    | nil => simp [pathLeads] at h
    | cons b bs =>
      simp only [pathLeads, Bool.and_eq_true, decide_eq_true_eq] at h
      obtain ⟨hab, hlead⟩ := h
      subst hab
      simpa using ih bs hlead

theorem findFile_doWrite (st : RunSt) (p : FPath) (c : String) (q : FPath) :
    findFile (doWrite st p c).fs.files q
      = if q = p then some c else findFile st.fs.files q := by
  simp [doWrite, findFile_setFile]

theorem doWrite_dirs (st : RunSt) (p : FPath) (c : String) :
    (doWrite st p c).fs.dirs = st.fs.dirs := rfl

theorem doWrite_changed (st : RunSt) (p : FPath) (c : String) :
    (doWrite st p c).changed = st.changed := rfl

theorem doWrite_log (st : RunSt) (p : FPath) (c : String) :
    (doWrite st p c).log = st.log ++ [Event.wrote p c] := rfl

theorem isDir_doWrite (st : RunSt) (p : FPath) (c : String) (q : FPath) :
    isDir (doWrite st p c).fs q
      = (isDir st.fs q || (pathLeads q p && !(p = q : Bool))) := by
  simp only [doWrite, isDir]
  rw [any_fst_setFile st.fs.files p c (fun x => pathLeads q x && !(x = q : Bool))]
  simp [Bool.or_assoc]

theorem foldl_mkdir_files (pres : List FPath) (st : RunSt) :
    (pres.foldl (fun s pre => if isDir s.fs pre then s
      else { s with fs := { s.fs with dirs := s.fs.dirs ++ [pre] },
                    log := s.log ++ [Event.madeDir pre] }) st).fs.files = st.fs.files := by
  induction pres generalizing st with
  | nil => rfl
  | cons a rest ih =>
    rw [List.foldl_cons]
    split
    · exact ih st
    · exact ih _

theorem foldl_mkdir_changed (pres : List FPath) (st : RunSt) :
    (pres.foldl (fun s pre => if isDir s.fs pre then s
      else { s with fs := { s.fs with dirs := s.fs.dirs ++ [pre] },
                    log := s.log ++ [Event.madeDir pre] }) st).changed = st.changed := by
  induction pres generalizing st with
  | nil => rfl
  | cons a rest ih =>
    rw [List.foldl_cons]
    split
    · exact ih st
    · exact ih _

theorem foldl_mkdir_log (pres : List FPath) (st : RunSt) :
    ∃ evs : List Event,
      (pres.foldl (fun s pre => if isDir s.fs pre then s
        else { s with fs := { s.fs with dirs := s.fs.dirs ++ [pre] },
                      log := s.log ++ [Event.madeDir pre] }) st).log = st.log ++ evs
      ∧ ∀ e ∈ evs, ∃ q, e = Event.madeDir q := by
  induction pres generalizing st with
  | nil => exact ⟨[], by simp⟩
  | cons a rest ih =>
    rw [List.foldl_cons]
    split
    · exact ih st
    · obtain ⟨evs, he, hm⟩ := ih { st with fs := { st.fs with dirs := st.fs.dirs ++ [a] }, log := st.log ++ [Event.madeDir a] }
      refine ⟨Event.madeDir a :: evs, ?_, ?_⟩
      · rw [he]; simp
      · intro e he2
        rcases List.mem_cons.mp he2 with he2 | he2
        · exact ⟨a, he2⟩
        · exact hm e he2

theorem foldl_mkdir_dirs (pres : List FPath) (st : RunSt) :
    ∀ dd ∈ (pres.foldl (fun s pre => if isDir s.fs pre then s
      else { s with fs := { s.fs with dirs := s.fs.dirs ++ [pre] },
                    log := s.log ++ [Event.madeDir pre] }) st).fs.dirs,
      dd ∈ st.fs.dirs ∨ dd ∈ pres := by
  induction pres generalizing st with
  | nil => intro dd hdd; exact Or.inl hdd
  | cons a rest ih =>
    intro dd hdd
    rw [List.foldl_cons] at hdd
    by_cases ha : isDir st.fs a
    · rw [if_pos ha] at hdd
      rcases ih st dd hdd with hh | hh
      · exact Or.inl hh
      · exact Or.inr (by simp [hh])
    · rw [if_neg ha] at hdd
      rcases ih _ dd hdd with hh | hh
      · simp at hh
        rcases hh with hh | hh
        · exact Or.inl hh
        · exact Or.inr (by simp [hh])
      · exact Or.inr (by simp [hh])

theorem mkdirParents_files (st : RunSt) (p : FPath) :
    (mkdirParents st p).fs.files = st.fs.files := by
  rw [mkdirParents]; exact foldl_mkdir_files _ _

theorem mkdirParents_changed (st : RunSt) (p : FPath) :
    (mkdirParents st p).changed = st.changed := by
  rw [mkdirParents]; exact foldl_mkdir_changed _ _

theorem mkdirParents_log (st : RunSt) (p : FPath) :
    ∃ evs : List Event, (mkdirParents st p).log = st.log ++ evs
      ∧ ∀ e ∈ evs, ∃ q, e = Event.madeDir q := by
  rw [mkdirParents]; exact foldl_mkdir_log _ _

theorem mkdirParents_dirs (st : RunSt) (p : FPath) :
    ∀ dd ∈ (mkdirParents st p).fs.dirs,
      dd ∈ st.fs.dirs ∨ dd ∈ pathPrefixes p.dropLast := by
  rw [mkdirParents]; exact foldl_mkdir_dirs _ _

theorem findFile_mkdirParents (st : RunSt) (p : FPath) (q : FPath) :
    findFile (mkdirParents st p).fs.files q = findFile st.fs.files q := by
  rw [mkdirParents_files]

/-! ### Branch-level characterizations of one loop iteration -/

theorem pullAction_list (h : String → String) (proj : String) (d : FPath)
    (σ : String) (st : RunSt) :
    pullAction h proj Mode.list d σ st = (Except.ok (), st) := by
  simp [pullAction]

theorem pullAction_write (h : String → String) (proj : String) (mode : Mode) (d : FPath)
    (σ A : String) (st : RunSt) (hmode : mode ≠ Mode.list)
    (hadd : add_marker h proj σ = Except.ok A) :
    pullAction h proj mode d σ st = (Except.ok (), doWrite st d A) := by
  rw [pullAction, if_neg hmode, hadd]

theorem pullAction_err (h : String → String) (proj : String) (mode : Mode) (d : FPath)
    (σ : String) (e : SyncErr) (st : RunSt) (hmode : mode ≠ Mode.list)
    (hadd : add_marker h proj σ = Except.error e) :
    pullAction h proj mode d σ st = (Except.error e, st) := by
  rw [pullAction, if_neg hmode, hadd]

theorem syncPair_no_src (h : String → String) (proj : String) (mode : Mode)
    (s d : FPath) (st : RunSt) (hsrc : findFile st.fs.files s = none) :
    syncPair h proj mode s d st = (Except.error (SyncErr.invalidSrcFile s), st) := by
  unfold syncPair
  rw [hsrc]

theorem syncPair_missing_dst (h : String → String) (proj : String) (mode : Mode)
    (s d : FPath) (st : RunSt) (σ : String)
    (hsrc : findFile st.fs.files s = some σ)
    (hdst : findFile st.fs.files d = none) :
    syncPair h proj mode s d st = pullAction h proj mode d σ (mkdirParents st d) := by
  unfold syncPair
  rw [hsrc]
  simp only [findFile_mkdirParents, hdst]

theorem syncPair_force (h : String → String) (proj : String)
    (s d : FPath) (st : RunSt) (σ raw : String)
    (hsrc : findFile st.fs.files s = some σ)
    (hdst : findFile st.fs.files d = some raw) :
    syncPair h proj Mode.force s d st
      = pullAction h proj Mode.force d σ (mkdirParents st d) := by
  unfold syncPair
  rw [hsrc]
  simp only [findFile_mkdirParents, hdst]
  simp only [if_true]

theorem syncPair_decode_err (h : String → String) (proj : String) (mode : Mode)
    (s d : FPath) (st : RunSt) (σ raw : String) (e : SyncErr)
    (hsrc : findFile st.fs.files s = some σ)
    (hdst : findFile st.fs.files d = some raw)
    (hforce : mode ≠ Mode.force)
    (hdec : get_dst_file_info h raw = Except.error e) :
    syncPair h proj mode s d st = (Except.error e, mkdirParents st d) := by
  unfold syncPair
  rw [hsrc]
  simp only [findFile_mkdirParents, hdst]
  rw [if_neg hforce, hdec]

theorem syncPair_src_changed (h : String → String) (proj : String) (mode : Mode)
    (s d : FPath) (st : RunSt) (σ raw m dh body : String)
    (hsrc : findFile st.fs.files s = some σ)
    (hdst : findFile st.fs.files d = some raw)
    (hforce : mode ≠ Mode.force)
    (hdec : get_dst_file_info h raw = Except.ok (m, dh, body))
    (h1 : h σ ≠ m) (h2 : dh = m) :
    syncPair h proj mode s d st = pullAction h proj mode d σ (mkdirParents st d) := by
  unfold syncPair
  rw [hsrc]
  simp only [findFile_mkdirParents, hdst]
  rw [if_neg hforce, hdec]
  simp only []
  rw [if_pos ⟨h1, h2⟩]

theorem syncPair_dst_changed_list (h : String → String) (proj : String)
    (s d : FPath) (st : RunSt) (σ raw m dh body : String)
    (hsrc : findFile st.fs.files s = some σ)
    (hdst : findFile st.fs.files d = some raw)
    (hdec : get_dst_file_info h raw = Except.ok (m, dh, body))
    (h1 : h σ = m) (h2 : dh ≠ m) :
    syncPair h proj Mode.list s d st = (Except.ok (), mkdirParents st d) := by
  unfold syncPair
  rw [hsrc]
  simp only [findFile_mkdirParents, hdst]
  rw [if_neg (by simp : ¬ Mode.list = Mode.force), hdec]
  simp only []
  rw [if_neg (by simp [h1]), if_pos ⟨h1, h2⟩]
  simp only [if_true]

theorem syncPair_dst_changed_pend (h : String → String) (proj : String) (mode : Mode)
    (s d : FPath) (st : RunSt) (σ raw m dh body : String)
    (hsrc : findFile st.fs.files s = some σ)
    (hdst : findFile st.fs.files d = some raw)
    (hforce : mode ≠ Mode.force) (hlist : mode ≠ Mode.list) (hfull : mode ≠ Mode.full)
    (hdec : get_dst_file_info h raw = Except.ok (m, dh, body))
    (h1 : h σ = m) (h2 : dh ≠ m) :
    syncPair h proj mode s d st =
      (Except.ok (), { mkdirParents st d with
        changed := (mkdirParents st d).changed ++ [d] }) := by
  unfold syncPair
  rw [hsrc]
  simp only [findFile_mkdirParents, hdst]
  rw [if_neg hforce, hdec]
  simp only []
  rw [if_neg (by simp [h1]), if_pos ⟨h1, h2⟩, if_neg hlist, if_neg hfull]

theorem syncPair_dst_changed_push (h : String → String) (proj : String)
    (s d : FPath) (st : RunSt) (σ raw m dh body marked : String)
    (hsrc : findFile st.fs.files s = some σ)
    (hdst : findFile st.fs.files d = some raw)
    (hdec : get_dst_file_info h raw = Except.ok (m, dh, body))
    (h1 : h σ = m) (h2 : dh ≠ m)
    (hadd : add_marker h proj body = Except.ok marked) :
    syncPair h proj Mode.full s d st =
      (Except.ok (), doWrite (doWrite (mkdirParents st d) s body) d marked) := by
  unfold syncPair
  rw [hsrc]
  simp only [findFile_mkdirParents, hdst]
  rw [if_neg (by simp : ¬ Mode.full = Mode.force), hdec]
  simp only []
  rw [if_neg (by simp [h1]), if_pos ⟨h1, h2⟩,
    if_neg (by simp : ¬ Mode.full = Mode.list)]
  simp only [if_true]
  rw [hadd]

theorem syncPair_dst_changed_push_err (h : String → String) (proj : String)
    (s d : FPath) (st : RunSt) (σ raw m dh body : String) (e : SyncErr)
    (hsrc : findFile st.fs.files s = some σ)
    (hdst : findFile st.fs.files d = some raw)
    (hdec : get_dst_file_info h raw = Except.ok (m, dh, body))
    (h1 : h σ = m) (h2 : dh ≠ m)
    (hadd : add_marker h proj body = Except.error e) :
    syncPair h proj Mode.full s d st =
      (Except.error e, doWrite (mkdirParents st d) s body) := by
  unfold syncPair
  rw [hsrc]
  simp only [findFile_mkdirParents, hdst]
  rw [if_neg (by simp : ¬ Mode.full = Mode.force), hdec]
  simp only []
  rw [if_neg (by simp [h1]), if_pos ⟨h1, h2⟩,
    if_neg (by simp : ¬ Mode.full = Mode.list)]
  simp only [if_true]
  rw [hadd]

theorem syncPair_refresh (h : String → String) (proj : String) (mode : Mode)
    (s d : FPath) (st : RunSt) (σ raw m dh body : String)
    (hsrc : findFile st.fs.files s = some σ)
    (hdst : findFile st.fs.files d = some raw)
    (hforce : mode ≠ Mode.force)
    (hdec : get_dst_file_info h raw = Except.ok (m, dh, body))
    (h1 : m ≠ h σ) (h2 : m ≠ dh) (h3 : h σ = dh) :
    syncPair h proj mode s d st = pullAction h proj mode d σ (mkdirParents st d) := by
  unfold syncPair
  rw [hsrc]
  simp only [findFile_mkdirParents, hdst]
  rw [if_neg hforce, hdec]
  simp only []
  rw [if_neg (by rintro ⟨ha, hb⟩; exact h2 hb.symm), if_neg (by
      rintro ⟨ha, hb⟩
      exact hb (h3 ▸ ha ▸ rfl)),
    if_pos ⟨h1, h2⟩, if_pos h3]

theorem syncPair_diverged (h : String → String) (proj : String) (mode : Mode)
    (s d : FPath) (st : RunSt) (σ raw m dh body : String)
    (hsrc : findFile st.fs.files s = some σ)
    (hdst : findFile st.fs.files d = some raw)
    (hforce : mode ≠ Mode.force)
    (hdec : get_dst_file_info h raw = Except.ok (m, dh, body))
    (h1 : m ≠ h σ) (h2 : m ≠ dh) (h3 : h σ ≠ dh) :
    syncPair h proj mode s d st
      = (Except.error (SyncErr.diverged s d), mkdirParents st d) := by
  unfold syncPair
  rw [hsrc]
  simp only [findFile_mkdirParents, hdst]
  rw [if_neg hforce, hdec]
  simp only []
  rw [if_neg (by rintro ⟨ha, hb⟩; exact h2 hb.symm),
    if_neg (by rintro ⟨ha, hb⟩; exact h1 ha.symm),
    if_pos ⟨h1, h2⟩, if_neg h3]

theorem syncPair_healthy (h : String → String) (proj : String) (mode : Mode)
    (s d : FPath) (st : RunSt) (σ raw m dh body : String)
    (hsrc : findFile st.fs.files s = some σ)
    (hdst : findFile st.fs.files d = some raw)
    (hforce : mode ≠ Mode.force)
    (hdec : get_dst_file_info h raw = Except.ok (m, dh, body))
    (h1 : h σ = m) (h2 : dh = m) :
    syncPair h proj mode s d st = (Except.ok (), mkdirParents st d) := by
  unfold syncPair
  rw [hsrc]
  simp only [findFile_mkdirParents, hdst]
  rw [if_neg hforce, hdec]
  simp only []
  rw [if_neg (by simp [h1]), if_neg (by simp [h2]),
    if_neg (by rintro ⟨ha, hb⟩; exact ha h1.symm)]

/-! ### Effect bounds for a LIST-mode iteration and for pruning -/

theorem foldl_mkdir_dirs_sub (pres : List FPath) (st : RunSt) :
    st.fs.dirs ⊆ (pres.foldl (fun s pre => if isDir s.fs pre then s
      else { s with fs := { s.fs with dirs := s.fs.dirs ++ [pre] },
                    log := s.log ++ [Event.madeDir pre] }) st).fs.dirs := by
  induction pres generalizing st with
  | nil => exact fun x hx => hx
  | cons a rest ih =>
    rw [List.foldl_cons]
    split
    · exact ih st
    · intro x hx
      exact ih _ (by simp [hx])

theorem mkdir_st_effects (st : RunSt) (d : FPath) :
    (mkdirParents st d).fs.files = st.fs.files
    ∧ (mkdirParents st d).changed = st.changed
    ∧ (∃ evs, (mkdirParents st d).log = st.log ++ evs
        ∧ ∀ e ∈ evs, ∃ q, e = Event.madeDir q)
    ∧ st.fs.dirs ⊆ (mkdirParents st d).fs.dirs := by
  refine ⟨mkdirParents_files st d, mkdirParents_changed st d, mkdirParents_log st d, ?_⟩
  rw [mkdirParents]
  exact foldl_mkdir_dirs_sub _ _

/-- If none of the three reconciliation tests fires, the pair is healthy. -/
theorem hashes_healthy {a m dh : String} (n1 : ¬(a ≠ m ∧ dh = m))
    (n2 : ¬(a = m ∧ dh ≠ m)) (n3 : ¬(m ≠ a ∧ m ≠ dh)) : a = m ∧ dh = m := by
  by_cases ha : a = m
  · subst ha
    by_cases hdh : dh = a
    · exact ⟨rfl, hdh⟩
    · exact absurd ⟨rfl, hdh⟩ n2
  · by_cases hdh : dh = m
    · exact absurd ⟨ha, hdh⟩ n1
    · exact absurd ⟨fun hh => ha hh.symm, fun hh => hdh hh.symm⟩ n3

/-- A LIST-mode iteration writes no file, records no pending conflict and
logs at most directory creations. -/
theorem syncPair_list_effects (h : String → String) (proj : String)
    (s d : FPath) (st : RunSt) :
    (syncPair h proj Mode.list s d st).2.fs.files = st.fs.files
    ∧ (syncPair h proj Mode.list s d st).2.changed = st.changed
    ∧ (∃ evs, (syncPair h proj Mode.list s d st).2.log = st.log ++ evs
        ∧ ∀ e ∈ evs, ∃ q, e = Event.madeDir q)
    ∧ st.fs.dirs ⊆ (syncPair h proj Mode.list s d st).2.fs.dirs := by
  rcases hs : findFile st.fs.files s with _ | σ
  · rw [syncPair_no_src h proj Mode.list s d st hs]
    exact ⟨rfl, rfl, ⟨[], by simp⟩, fun x hx => hx⟩
  · rcases hd : findFile st.fs.files d with _ | raw
    · rw [syncPair_missing_dst h proj Mode.list s d st σ hs hd, pullAction_list]
      exact mkdir_st_effects st d
    · rcases hdec : get_dst_file_info h raw with e | ⟨m, dh, body⟩
      · rw [syncPair_decode_err h proj Mode.list s d st σ raw e hs hd (by simp) hdec]
        exact mkdir_st_effects st d
      · by_cases h1 : h σ ≠ m ∧ dh = m
        · rw [syncPair_src_changed h proj Mode.list s d st σ raw m dh body hs hd
            (by simp) hdec h1.1 h1.2, pullAction_list]
          exact mkdir_st_effects st d
        · by_cases h2 : h σ = m ∧ dh ≠ m
          · rw [syncPair_dst_changed_list h proj s d st σ raw m dh body hs hd hdec h2.1 h2.2]
            exact mkdir_st_effects st d
          · by_cases h3 : m ≠ h σ ∧ m ≠ dh
            · by_cases h4 : h σ = dh
              · rw [syncPair_refresh h proj Mode.list s d st σ raw m dh body hs hd
                  (by simp) hdec h3.1 h3.2 h4, pullAction_list]
                exact mkdir_st_effects st d
              · rw [syncPair_diverged h proj Mode.list s d st σ raw m dh body hs hd
                  (by simp) hdec h3.1 h3.2 h4]
                exact mkdir_st_effects st d
            · obtain ⟨hh1, hh2⟩ := hashes_healthy h1 h2 h3
              rw [syncPair_healthy h proj Mode.list s d st σ raw m dh body hs hd
                (by simp) hdec hh1 hh2]
              exact mkdir_st_effects st d

theorem syncLoop_list_effects (h : String → String) (proj : String)
    (pairs : List (FPath × FPath)) : ∀ st : RunSt,
    (syncLoop h proj Mode.list pairs st).2.fs.files = st.fs.files
    ∧ (syncLoop h proj Mode.list pairs st).2.changed = st.changed
    ∧ (∃ evs, (syncLoop h proj Mode.list pairs st).2.log = st.log ++ evs
        ∧ ∀ e ∈ evs, ∃ q, e = Event.madeDir q)
    ∧ st.fs.dirs ⊆ (syncLoop h proj Mode.list pairs st).2.fs.dirs := by
  induction pairs with
  | nil => exact fun st => ⟨rfl, rfl, ⟨[], by simp [syncLoop], by simp⟩, fun x hx => hx⟩
  | cons pr rest ih =>
    intro st
    obtain ⟨s, d⟩ := pr
    obtain ⟨hf, hc, ⟨evs, hl, hm⟩, hd⟩ := syncPair_list_effects h proj s d st
    rw [syncLoop]
    rcases hsp : syncPair h proj Mode.list s d st with ⟨r, st1⟩
    rw [hsp] at hf hc hl hd
    cases r with
    | error e => exact ⟨hf, hc, ⟨evs, hl, hm⟩, hd⟩
    | ok u =>
      obtain ⟨hf2, hc2, ⟨evs2, hl2, hm2⟩, hd2⟩ := ih st1
      refine ⟨by rw [hf2, hf], by rw [hc2, hc], ⟨evs ++ evs2, ?_, ?_⟩, fun x hx => hd2 (hd hx)⟩
      · rw [hl2, hl, List.append_assoc]
      · intro e he
        rcases List.mem_append.mp he with he | he
        · exact hm e he
        · exact hm2 e he

theorem foldl_prune_list_id (kps : List FPath) (st : RunSt) :
    kps.foldl (fun s kp =>
      if pathExists s.fs kp then
        if Mode.list = Mode.list then s
        else { s with fs := removeTree s.fs kp,
                      log := s.log ++ [Event.removedTree kp] }
      else s) st = st := by
  induction kps generalizing st with
  | nil => rfl
  | cons kp rest ih =>
    rw [List.foldl_cons]
    have hstep : (if pathExists st.fs kp = true then
        if Mode.list = Mode.list then st
        else { st with fs := removeTree st.fs kp,
                       log := st.log ++ [Event.removedTree kp] }
      else st) = st := by
      split <;> simp
    rw [hstep]
    exact ih st

theorem pruneOrphans_list_eq (src dst : FPath) (st : RunSt) :
    pruneOrphans Mode.list src dst st = st := by
  rw [pruneOrphans]
  split
  · exact foldl_prune_list_id _ _
  · rfl

/-! ### A concrete clean digest for witnesses -/

/-- An executable stand-in digest used to instantiate the hash parameter
in concrete witnesses: a `1` followed by the digits occurring in the
input. Deterministic, digit-only output, as the source's md5-to-decimal
digest is. -/
def modelHash (s : String) : String :=
  String.mk ('1' :: s.data.filter (fun c => '0' ≤ c && c ≤ '9'))

theorem digitish_clean {c : Char} (h0 : '0' ≤ c) (h9 : c ≤ '9') :
    isLineBreak c = false ∧ ¬ c = 'E' := by
  have hne : ∀ d : Char, (¬ '0' ≤ d ∨ ¬ d ≤ '9') → (c == d) = false := by
    intro d hd
    apply beq_eq_false_iff_ne.mpr
    intro hc
    subst hc
    rcases hd with hd | hd
    · exact hd h0
    · exact hd h9
  constructor
  · rw [isLineBreak, hne '\n' (Or.inl (by decide)), hne '\r' (Or.inl (by decide)),
      hne (Char.ofNat 0x0b) (Or.inl (by decide)), hne (Char.ofNat 0x0c) (Or.inl (by decide)),
      hne (Char.ofNat 0x1c) (Or.inl (by decide)), hne (Char.ofNat 0x1d) (Or.inl (by decide)),
      hne (Char.ofNat 0x1e) (Or.inl (by decide)), hne (Char.ofNat 0x85) (Or.inr (by decide)),
      hne (Char.ofNat 0x2028) (Or.inr (by decide)), hne (Char.ofNat 0x2029) (Or.inr (by decide))]
    simp
  · intro hc
    subst hc
    exact absurd h9 (by decide)

theorem modelHash_clean : HashClean modelHash := by
  intro s c hc
  simp only [modelHash] at hc
  rcases List.mem_cons.mp hc with hc | hc
  · subst hc
    exact ⟨by decide, by decide⟩
  · obtain ⟨-, hp⟩ := List.mem_filter.mp hc
    simp only [Bool.and_eq_true, decide_eq_true_eq] at hp
    exact digitish_clean hp.1 hp.2

/-! ### Claim C10 -/

/-- C10: calling `sync_paths` in CHECK mode raises
`ValueError('sync_paths cannot be called in CHECK mode')` immediately:
the returned state is the untouched input filesystem with an empty
effect log, so CHECK-mode reconciliation never reads or writes any file
and verification happens only in the separate `check_path`. -/
theorem sync_paths_check_rejected (h : String → String) (proj : String)
    (src dst : FPath) (fs : FS) :
    sync_paths h proj src dst Mode.check fs
      = (Except.error SyncErr.checkModeCall, { fs := fs, log := [], changed := [] }) := by
  rw [sync_paths, if_pos rfl]

/-! ### Claim C9 -/

/-- C9: for a plain filename, `_valid_filename` accepts exactly the fixed
allow-list of config/lint/style names, plus `.py`/`.pyi` files whose name
does not contain `flycheck_`. -/
theorem valid_filename_iff (fname : String) (hplain : pyBasename fname = fname) :
    _valid_filename fname = Except.ok true
      ↔ (fname ∈ allowList
          ∨ ((strEndsWith fname ".py" = true ∨ strEndsWith fname ".pyi" = true)
              ∧ containsStr fname "flycheck_" = false)) := by
  rw [_valid_filename, if_neg (by simp [hplain])]
  by_cases hmem : fname ∈ allowList
  · rw [if_pos hmem]
    simp [hmem]
  · rw [if_neg hmem]
    simp [hmem, Bool.and_eq_true, Bool.or_eq_true, Bool.not_eq_true']

/-- Witness for C9 at concrete filenames. -/
theorem valid_filename_iff_witness :
    _valid_filename "a.py" = Except.ok true
    ∧ _valid_filename "pylintrc" = Except.ok true := by
  constructor
  · exact (valid_filename_iff "a.py" (by decide)).mpr
      (Or.inr ⟨Or.inl (by decide), by decide⟩)
  · exact (valid_filename_iff "pylintrc" (by decide)).mpr (Or.inl (by decide))

/-! ### Claim C7 -/

/-- Helper: the full effect bound of a LIST-mode run (shared by the C7
and C5 arguments). -/
theorem list_run_effects (h : String → String) (proj : String)
    (src dst : FPath) (fs : FS) :
    (sync_paths h proj src dst Mode.list fs).2.fs.files = fs.files
    ∧ (∀ e ∈ (sync_paths h proj src dst Mode.list fs).2.log, ∃ q, e = Event.madeDir q)
    ∧ fs.dirs ⊆ (sync_paths h proj src dst Mode.list fs).2.fs.dirs := by
  rw [sync_paths, if_neg (by simp)]
  by_cases hsrc : (!(isDir fs src || isFile fs src)) = true
  · rw [if_pos hsrc]
    exact ⟨rfl, by simp, fun x hx => hx⟩
  · rw [if_neg hsrc]
    cases hdisc : discover fs src dst with
    | error e => exact ⟨rfl, by simp, fun x hx => hx⟩
    | ok pairs =>
      dsimp only
      obtain ⟨hf, hc, ⟨evs, hl, hm⟩, hd⟩ :=
        syncLoop_list_effects h proj pairs { fs := fs, log := [], changed := [] }
      rcases hloop : syncLoop h proj Mode.list pairs { fs := fs, log := [], changed := [] }
        with ⟨r, st1⟩
      rw [hloop] at hf hc hl hd
      simp only at hf hc hl hd
      cases r with
      | error e =>
        dsimp only
        refine ⟨hf, ?_, hd⟩
        intro e2 he2
        rw [hl] at he2
        exact hm e2 (by simpa using he2)
      | ok u =>
        dsimp only
        simp only [pruneOrphans_list_eq]
        rw [if_pos (by rw [hc])]
        refine ⟨hf, ?_, hd⟩
        intro e2 he2
        rw [hl] at he2
        exact hm e2 (by simpa using he2)

/-- C7 (amended): a LIST-mode run writes no file (the file map is
unchanged), removes nothing (every pre-existing directory survives and
the log holds no write or removal events) — but it does create missing
destination parent directories, so its log may hold `madeDir` events. -/
theorem sync_paths_list_no_writes (h : String → String) (proj : String)
    (src dst : FPath) (fs : FS) :
    (sync_paths h proj src dst Mode.list fs).2.fs.files = fs.files
    ∧ (∀ e ∈ (sync_paths h proj src dst Mode.list fs).2.log, ∃ q, e = Event.madeDir q)
    ∧ fs.dirs ⊆ (sync_paths h proj src dst Mode.list fs).2.fs.dirs :=
  list_run_effects h proj src dst fs

/-- C7 counterexample: the claim "no directory is created" fails — a
LIST-mode run over a source file whose destination parent is missing
creates that directory (and logs it), as `dstfile.parent.mkdir` runs in
every mode. -/
theorem sync_paths_list_creates_dirs :
    (sync_paths modelHash "p" ["s", "a.py"] ["d", "a.py"] Mode.list
      { files := [(["s", "a.py"], "x\n")], dirs := [] }).2.log
      = [Event.madeDir ["d"]]
    ∧ (sync_paths modelHash "p" ["s", "a.py"] ["d", "a.py"] Mode.list
      { files := [(["s", "a.py"], "x\n")], dirs := [] }).2.fs.dirs = [["d"]] := by
  constructor
  · decide
  · decide

/-! ### Claim C3 -/

/-- C3 (amended): the encode/decode round trip
`decode (encode pid c) = (hash c, hash c, c)` holds for every line-break
free project id and every content `c` that is newline-normalized and not
already marker-bearing, over any clean digest. (The counterexample shows
all three restrictions are forced by the code.) -/
theorem decode_encode_roundtrip (h : String → String) (pid c : String)
    (hclean : HashClean h) (hpid : NoLB pid)
    (hunmk : selfMarked c = false) (hnorm : Normalized c) :
    (add_marker h pid c).bind (get_dst_file_info h) = Except.ok (h c, h c, c) := by
  rw [add_marker_ok h pid c hunmk]
  show get_dst_file_info h (markedOf h pid c) = _
  rw [get_dst_file_info_markedOf h pid c hclean hpid, hnorm]

/-- Witness for C3 at a concrete project id and content. -/
theorem decode_encode_roundtrip_witness :
    (add_marker modelHash "p" "x=1\n").bind (get_dst_file_info modelHash)
      = Except.ok (modelHash "x=1\n", modelHash "x=1\n", "x=1\n") :=
  decode_encode_roundtrip modelHash "p" "x=1\n" modelHash_clean
    (by decide) (by decide) (by decide)

/-- C3 counterexample: the round trip fails as universally stated.
With content `"x"` (no trailing newline) the decoded body is the
normalized `"x\n"`, not `"x"`; a project id containing a newline breaks
the marker line and decoding fails; content already carrying a marker in
its second line makes encoding itself fail. -/
theorem decode_encode_roundtrip_counterexample :
    (add_marker modelHash "p" "x").bind (get_dst_file_info modelHash)
      ≠ Except.ok (modelHash "x", modelHash "x", "x")
    ∧ (add_marker modelHash "p\nq" "x=1\n").bind (get_dst_file_info modelHash)
      = Except.error SyncErr.noMarker
    ∧ add_marker modelHash "p" "a\nEFRO_SYNC_HASH=1\n"
      = Except.error SyncErr.alreadySynced := by
  refine ⟨by decide, by decide, by decide⟩

/-! ### Claim C8 -/

/-- Is this result one of the `ValueError` failures of
`get_dst_file_info` (the spec's `MalformedMarker` kind)? -/
def isMalformedResult {α : Type} : Except SyncErr α → Bool
  | Except.error SyncErr.noLines => true
  | Except.error SyncErr.noMarker => true
  | _ => false

/-- C8 (amended): the decoder fails with a `MalformedMarker`-kind
`ValueError` exactly when the content has no lines at all, or has at
least two lines and the second line lacks the substring
`EFRO_SYNC_HASH` (without the `=`). A one-line content, or a second line
containing `EFRO_SYNC_HASH` but not `EFRO_SYNC_HASH=`, instead fails
with an uncaught `IndexError`; otherwise the decoder returns the
extracted hash, the recomputed hash of the content minus its first three
lines, and that stripped body. -/
theorem decode_malformed_iff (h : String → String) (s : String) :
    (isMalformedResult (get_dst_file_info h s) = true
      ↔ (splitlines s = []
          ∨ (2 ≤ (splitlines s).length
              ∧ containsStr ((splitlines s).getD 1 "") "EFRO_SYNC_HASH" = false)))
    ∧ ((splitlines s).length = 1 → get_dst_file_info h s = Except.error SyncErr.indexError)
    ∧ (∀ l1, (splitlines s).get? 1 = some l1 → containsStr l1 "EFRO_SYNC_HASH" = true →
        (pySplit "EFRO_SYNC_HASH=" l1).get? 1 = none →
        get_dst_file_info h s = Except.error SyncErr.indexError)
    ∧ (∀ l1 mh, (splitlines s).get? 1 = some l1 → containsStr l1 "EFRO_SYNC_HASH" = true →
        (pySplit "EFRO_SYNC_HASH=" l1).get? 1 = some mh →
        get_dst_file_info h s
          = Except.ok (mh, h (joinNL ((splitlines s).drop 3) ++ "\n"),
              joinNL ((splitlines s).drop 3) ++ "\n")) := by
  cases hsp : splitlines s with
  | nil =>
    refine ⟨by simp [get_dst_file_info, hsp, isMalformedResult], ?_, ?_, ?_⟩
    · intro hlen; simp at hlen
    · intro l1 hl1; simp at hl1
    · intro l1 mh hl1; simp at hl1
  | cons l0 rest =>
    cases rest with
    | nil =>
      refine ⟨?_, ?_, ?_, ?_⟩
      · rw [get_dst_file_info]
        simp [hsp, isMalformedResult]
      · intro _
        rw [get_dst_file_info]
        simp [hsp]
      · intro l1 hl1; simp at hl1
      · intro l1 mh hl1; simp at hl1
    | cons l1 rest2 =>
      by_cases hcont : containsStr l1 "EFRO_SYNC_HASH" = false
      · refine ⟨?_, ?_, ?_, ?_⟩
        · rw [get_dst_file_info]
          simp [hsp, isMalformedResult, hcont]
        · intro hlen; simp at hlen
        · intro l1x hl1x hcx
          have hl1e : some l1 = some l1x := hl1x
          injection hl1e with hl1e
          subst hl1e
          rw [hcx] at hcont
          simp at hcont
        · intro l1x mh hl1x hcx
          have hl1e : some l1 = some l1x := hl1x
          injection hl1e with hl1e
          subst hl1e
          rw [hcx] at hcont
          simp at hcont
      · have hcont' : containsStr l1 "EFRO_SYNC_HASH" = true := by
          cases hcc : containsStr l1 "EFRO_SYNC_HASH"
          · exact absurd hcc hcont
          · rfl
        cases hps : (pySplit "EFRO_SYNC_HASH=" l1).get? 1 with
        | none =>
          have hps2 : (pySplit "EFRO_SYNC_HASH=" l1)[1]? = none := by
            rw [← List.get?_eq_getElem?]; exact hps
          refine ⟨?_, ?_, ?_, ?_⟩
          · rw [get_dst_file_info]
            simp [hsp, isMalformedResult, hcont', hps2]
          · intro hlen; simp at hlen
          · intro l1x hl1x hcx hpx
            rw [get_dst_file_info]
            simp [hsp, hcont', hps2]
          · intro l1x mh hl1x hcx hpx
            have hl1e : some l1 = some l1x := hl1x
            injection hl1e with hl1e
            subst hl1e
            rw [hpx] at hps
            simp at hps
        | some mh0 =>
          have hps2 : (pySplit "EFRO_SYNC_HASH=" l1)[1]? = some mh0 := by
            rw [← List.get?_eq_getElem?]; exact hps
          refine ⟨?_, ?_, ?_, ?_⟩
          · rw [get_dst_file_info]
            simp [hsp, isMalformedResult, hcont', hps2]
          · intro hlen; simp at hlen
          · intro l1x hl1x hcx hpx
            have hl1e : some l1 = some l1x := hl1x
            injection hl1e with hl1e
            subst hl1e
            rw [hpx] at hps
            simp at hps
          · intro l1x mh hl1x hcx hpx
            have hl1e : some l1 = some l1x := hl1x
            injection hl1e with hl1e
            subst hl1e
            rw [hpx] at hps
            injection hps with hps
            subst hps
            rw [get_dst_file_info]
            have hpx2 : (pySplit "EFRO_SYNC_HASH=" l1)[1]? = some mh := by
              rw [← List.get?_eq_getElem?]; exact hpx
            simp [hsp, hcont', hpx2]

/-- Witness for C8: a well-formed marked content decodes via the
characterization theorem. -/
theorem decode_malformed_iff_witness :
    get_dst_file_info modelHash "l0\nx EFRO_SYNC_HASH=77\nl2\nbody"
      = Except.ok ("77", modelHash "body\n", "body\n") := by
  have happ := (decode_malformed_iff modelHash "l0\nx EFRO_SYNC_HASH=77\nl2\nbody").2.2.2
    "x EFRO_SYNC_HASH=77" "77" (by decide) (by decide) (by decide)
  rw [happ]
  decide

/-- C8 counterexample: as stated the claim is false. One-line content
gives an uncaught `IndexError`, not the `MalformedMarker` `ValueError`;
so does a second line that contains `EFRO_SYNC_HASH` but lacks the `=`
(which the claim's "lacks the EFRO_SYNC_HASH= marker" would classify as
`MalformedMarker`). -/
theorem decode_malformed_counterexample :
    (splitlines "x").length < 2
    ∧ get_dst_file_info modelHash "x" = Except.error SyncErr.indexError
    ∧ isMalformedResult (get_dst_file_info modelHash "x") = false
    ∧ containsStr "a EFRO_SYNC_HASH b" "EFRO_SYNC_HASH=" = false
    ∧ get_dst_file_info modelHash "l0\na EFRO_SYNC_HASH b\nl2\nbody"
        = Except.error SyncErr.indexError
    ∧ isMalformedResult (get_dst_file_info modelHash "l0\na EFRO_SYNC_HASH b\nl2\nbody")
        = false := by
  refine ⟨by decide, by decide, by decide, by decide, by decide, by decide⟩

/-! ### Single-file runs of sync_paths -/

theorem pruneOrphans_not_dir (mode : Mode) (src dst : FPath) (st : RunSt)
    (hdir : isDir st.fs dst = false) :
    pruneOrphans mode src dst st = st := by
  rw [pruneOrphans, if_neg (by simp [hdir])]

theorem self_not_mem_prefixes_dropLast (p : FPath) :
    p ∉ pathPrefixes p.dropLast := by
  intro hmem
  rw [pathPrefixes] at hmem
  obtain ⟨k, hk, hp⟩ := List.mem_map.mp hmem
  have hk2 := List.mem_range.mp hk
  have hlen := congrArg List.length hp
  rw [List.length_take] at hlen
  have hdl : p.dropLast.length = p.length - 1 := by simp
  rw [hdl] at hk2 hlen
  omega

theorem isDir_mkdirParents_false (st : RunSt) (p q : FPath)
    (hq : isDir st.fs q = false) (hnp : q ∉ pathPrefixes p.dropLast) :
    isDir (mkdirParents st p).fs q = false := by
  simp only [isDir, Bool.or_eq_false_iff] at hq ⊢
  obtain ⟨hq1, hq2⟩ := hq
  constructor
  · cases hc : (mkdirParents st p).fs.dirs.contains q
    · rfl
    · have hmem : q ∈ (mkdirParents st p).fs.dirs := by simpa using hc
      rcases mkdirParents_dirs st p q hmem with hh | hh
      · have : st.fs.dirs.contains q = true := by simpa using hh
        rw [this] at hq1
        exact absurd hq1 (by simp)
      · exact absurd hh hnp
  · rw [mkdirParents_files]
    exact hq2

/-- The whole single-file `sync_paths` run, reduced to its one loop
iteration followed by the final aggregate check (pruning is skipped on
the way out whenever the destination is not a directory afterwards). -/
theorem sync_paths_single (h : String → String) (proj : String) (sp dp : FPath)
    (fs : FS) (σ : String) (mode : Mode)
    (hmode : mode ≠ Mode.check)
    (hsrc : findFile fs.files sp = some σ)
    (hvalid : _valid_filename (lastName sp) = Except.ok true) :
    sync_paths h proj sp dp mode fs =
      (match syncPair h proj mode sp dp { fs := fs, log := [], changed := [] } with
       | (Except.error e, st) => (Except.error e, st)
       | (Except.ok _, st) =>
         let st2 := pruneOrphans mode sp dp st
         if st2.changed = [] then (Except.ok 1, st2)
         else (Except.error (SyncErr.changedDstFiles st2.changed), st2)) := by
  have hisfile : isFile fs sp = true := by simp [isFile, hsrc]
  rw [sync_paths, if_neg hmode, if_neg (by simp [hisfile])]
  rw [show discover fs sp dp = Except.ok [(sp, dp)] from by
    rw [discover, if_pos hisfile, hvalid]]
  dsimp only
  rcases hstep : syncPair h proj mode sp dp { fs := fs, log := [], changed := [] }
    with ⟨r, st1⟩
  rw [show syncLoop h proj mode [(sp, dp)] { fs := fs, log := [], changed := [] }
      = (match syncPair h proj mode sp dp { fs := fs, log := [], changed := [] } with
         | (Except.error e, st) => (Except.error e, st)
         | (Except.ok _, st) => (Except.ok (), st)) from by
    show (match syncPair h proj mode sp dp { fs := fs, log := [], changed := [] } with
         | (Except.error e, st1) => (Except.error e, st1)
         | (Except.ok _, st1) => syncLoop h proj mode [] st1) = _
    rcases syncPair h proj mode sp dp { fs := fs, log := [], changed := [] } with ⟨r2, st2⟩
    cases r2 with
    | error e => rfl
    | ok u => rfl]
  rw [hstep]
  cases r with
  | error e => rfl
  | ok u => rfl

/-! ### Claim C2 -/

/-- C2 (amended): in PULL, FULL and LIST modes, a pair whose marker hash
matches neither the source nor the destination hash while those two also
differ fails immediately with the diverged-files RuntimeError naming
both paths, and no file is touched. (FORCE instead overwrites the
destination unconditionally, and CHECK is rejected before any per-file
processing — see the counterexample.) -/
theorem sync_paths_diverged_raises (h : String → String) (proj : String)
    (sp dp : FPath) (fs : FS) (σ raw m dh body : String) (mode : Mode)
    (hm : mode = Mode.pull ∨ mode = Mode.full ∨ mode = Mode.list)
    (hsrc : findFile fs.files sp = some σ)
    (hvalid : _valid_filename (lastName sp) = Except.ok true)
    (hdst : findFile fs.files dp = some raw)
    (hdec : get_dst_file_info h raw = Except.ok (m, dh, body))
    (h1 : m ≠ h σ) (h2 : m ≠ dh) (h3 : h σ ≠ dh) :
    (sync_paths h proj sp dp mode fs).1 = Except.error (SyncErr.diverged sp dp)
    ∧ (sync_paths h proj sp dp mode fs).2.fs.files = fs.files := by
  have hmode : mode ≠ Mode.check := by rcases hm with rfl | rfl | rfl <;> simp
  have hforce : mode ≠ Mode.force := by rcases hm with rfl | rfl | rfl <;> simp
  rw [sync_paths_single h proj sp dp fs σ mode hmode hsrc hvalid]
  rw [syncPair_diverged h proj mode sp dp { fs := fs, log := [], changed := [] }
    σ raw m dh body hsrc hdst hforce hdec h1 h2 h3]
  exact ⟨rfl, mkdirParents_files _ _⟩

/-- The filesystem used in the C2 counterexample: source and destination
both changed, to different content, since the recorded baseline. -/
def fsDiverged : FS :=
  { files := [(["s", "a.py"], "x=3\n"),
      (["d", "a.py"], "# Synced from p.\n# EFRO_SYNC_HASH=11\n#\nx=2\n")],
    dirs := [] }

/-- C2 counterexample: the claim's "in every mode (including LIST)" is
false. On a diverged pair PULL (like FULL and LIST) raises the diverged
error, but FORCE succeeds and silently overwrites the destination, and
CHECK fails with the CHECK-mode ValueError instead. -/
theorem sync_paths_diverged_counterexample :
    (sync_paths modelHash "p" ["s", "a.py"] ["d", "a.py"] Mode.pull fsDiverged).1
        = Except.error (SyncErr.diverged ["s", "a.py"] ["d", "a.py"])
    ∧ (sync_paths modelHash "p" ["s", "a.py"] ["d", "a.py"] Mode.force fsDiverged).1
        = Except.ok 1
    ∧ findFile (sync_paths modelHash "p" ["s", "a.py"] ["d", "a.py"]
        Mode.force fsDiverged).2.fs.files ["d", "a.py"]
        = some "# Synced from p.\n# EFRO_SYNC_HASH=13\n#\nx=3\n"
    ∧ (sync_paths modelHash "p" ["s", "a.py"] ["d", "a.py"] Mode.check fsDiverged).1
        = Except.error SyncErr.checkModeCall := by
  refine ⟨by decide, by decide, by decide, by decide⟩

/-! ### Claim C4 -/

/-- C4 (amended): with no pre-existing destination file, a run in PULL,
FULL or FORCE mode (LIST only reports — see the counterexample) creates
the destination with a fresh marker whose embedded hash is the digest of
the source content, and whose decoded body is the newline-normalized
source content (equal to the source content exactly when that content is
normalized). -/
theorem sync_paths_fresh_pull (h : String → String) (proj : String)
    (sp dp : FPath) (fs : FS) (σ : String) (mode : Mode)
    (hm : mode = Mode.pull ∨ mode = Mode.full ∨ mode = Mode.force)
    (hclean : HashClean h) (hproj : NoLB proj)
    (hsrc : findFile fs.files sp = some σ)
    (hvalid : _valid_filename (lastName sp) = Except.ok true)
    (hdst : findFile fs.files dp = none)
    (hunmk : selfMarked σ = false)
    (hndir : isDir fs dp = false) :
    (sync_paths h proj sp dp mode fs).1 = Except.ok 1
    ∧ findFile (sync_paths h proj sp dp mode fs).2.fs.files dp
        = some (markedOf h proj σ)
    ∧ get_dst_file_info h (markedOf h proj σ)
        = Except.ok (h σ, h (normalizeContent σ), normalizeContent σ) := by
  have hmode : mode ≠ Mode.check := by rcases hm with rfl | rfl | rfl <;> simp
  have hlist : mode ≠ Mode.list := by rcases hm with rfl | rfl | rfl <;> simp
  rw [sync_paths_single h proj sp dp fs σ mode hmode hsrc hvalid]
  rw [syncPair_missing_dst h proj mode sp dp { fs := fs, log := [], changed := [] }
    σ hsrc hdst]
  rw [pullAction_write h proj mode dp σ (markedOf h proj σ) _ hlist
    (add_marker_ok h proj σ hunmk)]
  dsimp only
  have hndir2 : isDir (doWrite (mkdirParents { fs := fs, log := [], changed := [] } dp)
      dp (markedOf h proj σ)).fs dp = false := by
    rw [isDir_doWrite]
    rw [isDir_mkdirParents_false _ dp dp hndir (self_not_mem_prefixes_dropLast dp)]
    simp
  rw [pruneOrphans_not_dir _ _ _ _ hndir2]
  rw [if_pos (by rw [doWrite_changed, mkdirParents_changed])]
  refine ⟨rfl, ?_, get_dst_file_info_markedOf h proj σ hclean hproj⟩
  rw [findFile_doWrite, if_pos rfl]

/-- C4 counterexample: the claim fails for LIST mode (within "any mode
except CHECK"): no destination file is produced there. And in FORCE mode
with the non-normalized source content `"x"`, the decoded body of the
produced destination is `"x\n"`, not the source content `"x"`. -/
theorem sync_paths_fresh_pull_counterexample :
    findFile (sync_paths modelHash "p" ["s", "a.py"] ["d", "a.py"] Mode.list
      { files := [(["s", "a.py"], "x=1\n")], dirs := [] }).2.fs.files ["d", "a.py"]
      = none
    ∧ (sync_paths modelHash "p" ["s", "a.py"] ["d", "a.py"] Mode.force
        { files := [(["s", "a.py"], "x")], dirs := [] }).1 = Except.ok 1
    ∧ get_dst_file_info modelHash
        ((findFile (sync_paths modelHash "p" ["s", "a.py"] ["d", "a.py"] Mode.force
          { files := [(["s", "a.py"], "x")], dirs := [] }).2.fs.files
            ["d", "a.py"]).getD "")
        = Except.ok (modelHash "x", modelHash "x\n", "x\n") := by
  refine ⟨by decide, by decide, by decide⟩

/-! ### Claim C6 -/

/-- C6 (amended): when source and destination landed on identical
content whose shared hash differs from the marker's baseline, any mode
except CHECK and LIST rewrites only the destination's marker header —
the new baseline hash is the shared content hash, the decoded body and
its hash are unchanged, the source file is untouched, and no error is
raised (provided the shared content does not itself carry a sync marker;
see the counterexample for CHECK and for marker-bearing content). -/
theorem sync_paths_refresh_marker (h : String → String) (proj : String)
    (sp dp : FPath) (fs : FS) (σ raw m dh : String) (mode : Mode)
    (hm : mode = Mode.pull ∨ mode = Mode.full ∨ mode = Mode.force)
    (hclean : HashClean h) (hproj : NoLB proj)
    (hsrc : findFile fs.files sp = some σ)
    (hvalid : _valid_filename (lastName sp) = Except.ok true)
    (hdst : findFile fs.files dp = some raw)
    (hdec : get_dst_file_info h raw = Except.ok (m, dh, σ))
    (hm1 : m ≠ h σ)
    (hunmk : selfMarked σ = false)
    (hndir : isDir fs dp = false)
    (hspdp : sp ≠ dp) :
    (sync_paths h proj sp dp mode fs).1 = Except.ok 1
    ∧ findFile (sync_paths h proj sp dp mode fs).2.fs.files dp
        = some (markedOf h proj σ)
    ∧ get_dst_file_info h (markedOf h proj σ) = Except.ok (h σ, h σ, σ)
    ∧ findFile (sync_paths h proj sp dp mode fs).2.fs.files sp = some σ := by
  obtain ⟨hbody_norm, hdh⟩ := get_dst_body_normalized h raw m dh σ hdec
  have hmode : mode ≠ Mode.check := by rcases hm with rfl | rfl | rfl <;> simp
  rw [sync_paths_single h proj sp dp fs σ mode hmode hsrc hvalid]
  have hstep : syncPair h proj mode sp dp { fs := fs, log := [], changed := [] }
      = (Except.ok (), doWrite (mkdirParents { fs := fs, log := [], changed := [] } dp)
          dp (markedOf h proj σ)) := by
    rcases hm with rfl | rfl | rfl
    · rw [syncPair_refresh h proj Mode.pull sp dp _ σ raw m dh σ hsrc hdst
        (by simp) hdec hm1 (by rw [hdh]; exact hm1) hdh.symm]
      rw [pullAction_write h proj Mode.pull dp σ (markedOf h proj σ) _ (by simp)
        (add_marker_ok h proj σ hunmk)]
    · rw [syncPair_refresh h proj Mode.full sp dp _ σ raw m dh σ hsrc hdst
        (by simp) hdec hm1 (by rw [hdh]; exact hm1) hdh.symm]
      rw [pullAction_write h proj Mode.full dp σ (markedOf h proj σ) _ (by simp)
        (add_marker_ok h proj σ hunmk)]
    · rw [syncPair_force h proj sp dp _ σ raw hsrc hdst]
      rw [pullAction_write h proj Mode.force dp σ (markedOf h proj σ) _ (by simp)
        (add_marker_ok h proj σ hunmk)]
  rw [hstep]
  dsimp only
  have hndir2 : isDir (doWrite (mkdirParents { fs := fs, log := [], changed := [] } dp)
      dp (markedOf h proj σ)).fs dp = false := by
    rw [isDir_doWrite]
    rw [isDir_mkdirParents_false _ dp dp hndir (self_not_mem_prefixes_dropLast dp)]
    simp
  rw [pruneOrphans_not_dir _ _ _ _ hndir2]
  rw [if_pos (by rw [doWrite_changed, mkdirParents_changed])]
  have hdecode := get_dst_file_info_markedOf h proj σ hclean hproj
  rw [hbody_norm] at hdecode
  refine ⟨rfl, ?_, hdecode, ?_⟩
  · rw [findFile_doWrite, if_pos rfl]
  · rw [findFile_doWrite, if_neg hspdp, findFile_mkdirParents]
    exact hsrc

/-- The filesystem used in the C6 counterexamples. -/
def fsRefresh : FS :=
  { files := [(["s", "a.py"], "x=2\n"),
      (["d", "a.py"], "# Synced from p.\n# EFRO_SYNC_HASH=11\n#\nx=2\n")],
    dirs := [] }

/-- The filesystem for the marker-bearing shared content case of C6. -/
def fsRefreshMarked : FS :=
  { files := [(["s", "a.py"], "a\nEFRO_SYNC_HASH=5\n"),
      (["d", "a.py"], "# Synced from p.\n# EFRO_SYNC_HASH=19\n#\na\nEFRO_SYNC_HASH=5")],
    dirs := [] }

/-- C6 counterexample: "in every mode ... raises no error" fails. In
CHECK mode the run is rejected with a ValueError, and when the shared
content itself carries a sync-marker line the refresh write raises the
already-synced RuntimeError (while PULL on ordinary shared content
indeed just refreshes the marker). -/
theorem sync_paths_refresh_counterexample :
    (sync_paths modelHash "p" ["s", "a.py"] ["d", "a.py"] Mode.check fsRefresh).1
        = Except.error SyncErr.checkModeCall
    ∧ (sync_paths modelHash "p" ["s", "a.py"] ["d", "a.py"] Mode.pull fsRefresh).1
        = Except.ok 1
    ∧ (sync_paths modelHash "p" ["s", "a.py"] ["d", "a.py"] Mode.pull fsRefreshMarked).1
        = Except.error SyncErr.alreadySynced := by
  refine ⟨by decide, by decide, by decide⟩

/-- Witness for C2 at the concrete diverged filesystem. -/
theorem sync_paths_diverged_raises_witness :
    (sync_paths modelHash "p" ["s", "a.py"] ["d", "a.py"] Mode.full fsDiverged).1
        = Except.error (SyncErr.diverged ["s", "a.py"] ["d", "a.py"])
    ∧ (sync_paths modelHash "p" ["s", "a.py"] ["d", "a.py"] Mode.full fsDiverged).2.fs.files
        = fsDiverged.files :=
  sync_paths_diverged_raises modelHash "p" ["s", "a.py"] ["d", "a.py"] fsDiverged
    "x=3\n" "# Synced from p.\n# EFRO_SYNC_HASH=11\n#\nx=2\n" "11" "12" "x=2\n"
    Mode.full (Or.inr (Or.inl rfl)) (by decide) (by decide) (by decide) (by decide)
    (by decide) (by decide) (by decide)

/-- Witness for C4 at a concrete fresh pull. -/
theorem sync_paths_fresh_pull_witness :
    (sync_paths modelHash "p" ["s", "a.py"] ["d", "a.py"] Mode.pull
        { files := [(["s", "a.py"], "x=1\n")], dirs := [] }).1 = Except.ok 1
    ∧ findFile (sync_paths modelHash "p" ["s", "a.py"] ["d", "a.py"] Mode.pull
        { files := [(["s", "a.py"], "x=1\n")], dirs := [] }).2.fs.files ["d", "a.py"]
        = some (markedOf modelHash "p" "x=1\n")
    ∧ get_dst_file_info modelHash (markedOf modelHash "p" "x=1\n")
        = Except.ok (modelHash "x=1\n", modelHash (normalizeContent "x=1\n"),
            normalizeContent "x=1\n") :=
  sync_paths_fresh_pull modelHash "p" ["s", "a.py"] ["d", "a.py"]
    { files := [(["s", "a.py"], "x=1\n")], dirs := [] } "x=1\n" Mode.pull
    (Or.inl rfl) modelHash_clean (by decide) (by decide) (by decide) (by decide)
    (by decide) (by decide)

/-- Witness for C6 at the concrete convergent-edit filesystem. -/
theorem sync_paths_refresh_marker_witness :
    (sync_paths modelHash "p" ["s", "a.py"] ["d", "a.py"] Mode.pull fsRefresh).1
        = Except.ok 1
    ∧ findFile (sync_paths modelHash "p" ["s", "a.py"] ["d", "a.py"]
        Mode.pull fsRefresh).2.fs.files ["d", "a.py"]
        = some (markedOf modelHash "p" "x=2\n")
    ∧ get_dst_file_info modelHash (markedOf modelHash "p" "x=2\n")
        = Except.ok (modelHash "x=2\n", modelHash "x=2\n", "x=2\n")
    ∧ findFile (sync_paths modelHash "p" ["s", "a.py"] ["d", "a.py"]
        Mode.pull fsRefresh).2.fs.files ["s", "a.py"] = some "x=2\n" :=
  sync_paths_refresh_marker modelHash "p" ["s", "a.py"] ["d", "a.py"] fsRefresh
    "x=2\n" "# Synced from p.\n# EFRO_SYNC_HASH=11\n#\nx=2\n" "11" "12" Mode.pull
    (Or.inl rfl) modelHash_clean (by decide) (by decide) (by decide) (by decide)
    (by decide) (by decide) (by decide) (by decide) (by decide)

/-! ### Second-run write freedom (claim C5) -/

theorem wrote_not_in_mkdir_log (st : RunSt) (d : FPath) (p : FPath) (c : String)
    (hst : Event.wrote p c ∉ st.log) :
    Event.wrote p c ∉ (mkdirParents st d).log := by
  obtain ⟨evs, hl, hm⟩ := mkdirParents_log st d
  rw [hl]
  intro hmem
  rcases List.mem_append.mp hmem with hh | hh
  · exact hst hh
  · obtain ⟨q, hq⟩ := hm _ hh
    exact absurd hq (by simp)

theorem wrote_not_in_prune_foldl (mode : Mode) (kps : List FPath) (st : RunSt)
    (p : FPath) (c : String) (hst : Event.wrote p c ∉ st.log) :
    Event.wrote p c ∉ (kps.foldl (fun s kp =>
      if pathExists s.fs kp then
        if mode = Mode.list then s
        else { s with fs := removeTree s.fs kp,
                      log := s.log ++ [Event.removedTree kp] }
      else s) st).log := by
  induction kps generalizing st with
  | nil => exact hst
  | cons kp rest ih =>
    rw [List.foldl_cons]
    by_cases hex : pathExists st.fs kp = true
    · rw [if_pos hex]
      by_cases hl : mode = Mode.list
      · rw [if_pos hl]
        exact ih st hst
      · rw [if_neg hl]
        refine ih _ ?_
        intro hmem
        rcases List.mem_append.mp hmem with hh | hh
        · exact hst hh
        · simp at hh
    · rw [if_neg hex]
      exact ih st hst

theorem wrote_not_in_prune_log (mode : Mode) (src dst : FPath) (st : RunSt)
    (p : FPath) (c : String) (hst : Event.wrote p c ∉ st.log) :
    Event.wrote p c ∉ (pruneOrphans mode src dst st).log := by
  rw [pruneOrphans]
  split
  · exact wrote_not_in_prune_foldl mode _ st p c hst
  · exact hst

/-- A single-file run logs no write if its one loop iteration logs none. -/
theorem run_no_writes_of_pair_no_writes (h : String → String) (proj : String)
    (sp dp : FPath) (fs : FS) (σ : String) (mode : Mode)
    (hmode : mode ≠ Mode.check)
    (hsrc : findFile fs.files sp = some σ)
    (hvalid : _valid_filename (lastName sp) = Except.ok true)
    (hpair : ∀ p c, Event.wrote p c ∉
      (syncPair h proj mode sp dp { fs := fs, log := [], changed := [] }).2.log) :
    ∀ p c, Event.wrote p c ∉ (sync_paths h proj sp dp mode fs).2.log := by
  intro p c
  rw [sync_paths_single h proj sp dp fs σ mode hmode hsrc hvalid]
  rcases hstep : syncPair h proj mode sp dp { fs := fs, log := [], changed := [] }
    with ⟨r, st1⟩
  have hp1 : Event.wrote p c ∉ st1.log := by
    have := hpair p c
    rw [hstep] at this
    exact this
  cases r with
  | error e => exact hp1
  | ok u =>
    dsimp only
    split
    · exact wrote_not_in_prune_log mode sp dp st1 p c hp1
    · exact wrote_not_in_prune_log mode sp dp st1 p c hp1

/-- The iteration states that contain no write events when started from
an empty log. -/
theorem wrote_not_in_mkdir_st0 (fs : FS) (d : FPath) (p : FPath) (c : String) :
    Event.wrote p c ∉ (mkdirParents { fs := fs, log := [], changed := [] } d).log :=
  wrote_not_in_mkdir_log _ d p c (by simp)

/-- A healthy pair (destination freshly encoding the normalized source)
logs no write. -/
theorem pair_no_writes_healthy (h : String → String) (proj : String)
    (sp dp : FPath) (fs : FS) (σ : String) (mode : Mode)
    (hclean : HashClean h) (hproj : NoLB proj)
    (hsrc : findFile fs.files sp = some σ) (hnorm : Normalized σ)
    (hdst : findFile fs.files dp = some (markedOf h proj σ))
    (hforce : mode ≠ Mode.force) :
    ∀ p c, Event.wrote p c ∉
      (syncPair h proj mode sp dp { fs := fs, log := [], changed := [] }).2.log := by
  intro p c
  have hdec := get_dst_file_info_markedOf h proj σ hclean hproj
  rw [hnorm] at hdec
  rw [syncPair_healthy h proj mode sp dp _ σ (markedOf h proj σ) (h σ) (h σ) σ
    hsrc hdst hforce hdec rfl rfl]
  exact wrote_not_in_mkdir_st0 fs dp p c

/-- Runs whose single iteration succeeds writing the destination once. -/
theorem run_pull_write_eq (h : String → String) (proj : String)
    (sp dp : FPath) (fs : FS) (σ A : String) (mode : Mode)
    (hmode : mode ≠ Mode.check)
    (hsrc : findFile fs.files sp = some σ)
    (hvalid : _valid_filename (lastName sp) = Except.ok true)
    (hndir : isDir fs dp = false)
    (hstep : syncPair h proj mode sp dp { fs := fs, log := [], changed := [] }
      = (Except.ok (), doWrite (mkdirParents { fs := fs, log := [], changed := [] } dp) dp A)) :
    sync_paths h proj sp dp mode fs
      = (Except.ok 1, doWrite (mkdirParents { fs := fs, log := [], changed := [] } dp) dp A) := by
  rw [sync_paths_single h proj sp dp fs σ mode hmode hsrc hvalid, hstep]
  dsimp only
  have hndir2 : isDir (doWrite (mkdirParents { fs := fs, log := [], changed := [] } dp)
      dp A).fs dp = false := by
    rw [isDir_doWrite]
    rw [isDir_mkdirParents_false _ dp dp hndir (self_not_mem_prefixes_dropLast dp)]
    simp
  rw [pruneOrphans_not_dir _ _ _ _ hndir2]
  rw [if_pos (by rw [doWrite_changed, mkdirParents_changed])]

/-- Runs whose single iteration fails: the exception propagates with the
iteration's state. -/
theorem run_err_eq (h : String → String) (proj : String)
    (sp dp : FPath) (fs : FS) (σ : String) (mode : Mode) (e : SyncErr) (stX : RunSt)
    (hmode : mode ≠ Mode.check)
    (hsrc : findFile fs.files sp = some σ)
    (hvalid : _valid_filename (lastName sp) = Except.ok true)
    (hstep : syncPair h proj mode sp dp { fs := fs, log := [], changed := [] }
      = (Except.error e, stX)) :
    sync_paths h proj sp dp mode fs = (Except.error e, stX) := by
  rw [sync_paths_single h proj sp dp fs σ mode hmode hsrc hvalid, hstep]

/-- Runs whose single iteration records a pending conflict: the aggregate
changed-files error is raised at the end, with no write. -/
theorem run_pend_eq (h : String → String) (proj : String)
    (sp dp : FPath) (fs : FS) (σ : String) (mode : Mode)
    (hmode : mode ≠ Mode.check)
    (hsrc : findFile fs.files sp = some σ)
    (hvalid : _valid_filename (lastName sp) = Except.ok true)
    (hndir : isDir fs dp = false)
    (hstep : syncPair h proj mode sp dp { fs := fs, log := [], changed := [] }
      = (Except.ok (), { mkdirParents { fs := fs, log := [], changed := [] } dp with
          changed := (mkdirParents { fs := fs, log := [], changed := [] } dp).changed ++ [dp] })) :
    sync_paths h proj sp dp mode fs
      = (Except.error (SyncErr.changedDstFiles [dp]),
          { mkdirParents { fs := fs, log := [], changed := [] } dp with
            changed := (mkdirParents { fs := fs, log := [], changed := [] } dp).changed ++ [dp] }) := by
  rw [sync_paths_single h proj sp dp fs σ mode hmode hsrc hvalid, hstep]
  dsimp only
  have hch : ({ mkdirParents { fs := fs, log := [], changed := [] } dp with
      changed := (mkdirParents { fs := fs, log := [], changed := [] } dp).changed ++ [dp] } : RunSt).changed
      = [dp] := by
    show (mkdirParents { fs := fs, log := [], changed := [] } dp).changed ++ [dp] = [dp]
    rw [mkdirParents_changed]
    rfl
  have hndir2 : isDir ({ mkdirParents { fs := fs, log := [], changed := [] } dp with
      changed := (mkdirParents { fs := fs, log := [], changed := [] } dp).changed ++ [dp] } : RunSt).fs dp
      = false := by
    show isDir (mkdirParents { fs := fs, log := [], changed := [] } dp).fs dp = false
    exact isDir_mkdirParents_false _ dp dp hndir (self_not_mem_prefixes_dropLast dp)
  rw [pruneOrphans_not_dir _ _ _ _ hndir2]
  rw [if_neg (by rw [hch]; simp), hch]

/-- Runs whose single iteration is a clean no-op. -/
theorem run_noop_eq (h : String → String) (proj : String)
    (sp dp : FPath) (fs : FS) (σ : String) (mode : Mode)
    (hmode : mode ≠ Mode.check)
    (hsrc : findFile fs.files sp = some σ)
    (hvalid : _valid_filename (lastName sp) = Except.ok true)
    (hndir : isDir fs dp = false)
    (hstep : syncPair h proj mode sp dp { fs := fs, log := [], changed := [] }
      = (Except.ok (), mkdirParents { fs := fs, log := [], changed := [] } dp)) :
    sync_paths h proj sp dp mode fs
      = (Except.ok 1, mkdirParents { fs := fs, log := [], changed := [] } dp) := by
  rw [sync_paths_single h proj sp dp fs σ mode hmode hsrc hvalid, hstep]
  dsimp only
  have hndir2 : isDir (mkdirParents { fs := fs, log := [], changed := [] } dp).fs dp = false :=
    isDir_mkdirParents_false _ dp dp hndir (self_not_mem_prefixes_dropLast dp)
  rw [pruneOrphans_not_dir _ _ _ _ hndir2]
  rw [if_pos (by rw [mkdirParents_changed])]

/-- The FULL-mode push run: source then destination are written. -/
theorem run_push_eq (h : String → String) (proj : String)
    (sp dp : FPath) (fs : FS) (σ A body : String)
    (hsrc : findFile fs.files sp = some σ)
    (hvalid : _valid_filename (lastName sp) = Except.ok true)
    (hndir : isDir fs dp = false)
    (hlead2 : pathLeads dp sp = false)
    (hstep : syncPair h proj Mode.full sp dp { fs := fs, log := [], changed := [] }
      = (Except.ok (), doWrite (doWrite (mkdirParents { fs := fs, log := [], changed := [] } dp)
          sp body) dp A)) :
    sync_paths h proj sp dp Mode.full fs
      = (Except.ok 1, doWrite (doWrite (mkdirParents { fs := fs, log := [], changed := [] } dp)
          sp body) dp A) := by
  rw [sync_paths_single h proj sp dp fs σ Mode.full (by simp) hsrc hvalid, hstep]
  dsimp only
  have hndir2 : isDir (doWrite (doWrite (mkdirParents { fs := fs, log := [], changed := [] } dp)
      sp body) dp A).fs dp = false := by
    rw [isDir_doWrite, isDir_doWrite]
    rw [isDir_mkdirParents_false _ dp dp hndir (self_not_mem_prefixes_dropLast dp)]
    simp [hlead2]
  rw [pruneOrphans_not_dir _ _ _ _ hndir2]
  rw [if_pos (by rw [doWrite_changed, doWrite_changed, mkdirParents_changed])]

/-- Core of the idempotence argument for the writing modes PULL and
FULL: whatever the initial destination state, the second of two
back-to-back single-file runs logs no write. -/
theorem second_run_no_writes_core (h : String → String) (proj : String)
    (sp dp : FPath) (fs : FS) (σ : String) (mode : Mode)
    (hm2 : mode = Mode.pull ∨ mode = Mode.full)
    (hclean : HashClean h) (hproj : NoLB proj)
    (hsrc : findFile fs.files sp = some σ)
    (hnorm : Normalized σ)
    (hvalid : _valid_filename (lastName sp) = Except.ok true)
    (hndir : isDir fs dp = false)
    (hlead1 : pathLeads sp dp = false) (hlead2 : pathLeads dp sp = false) :
    ∀ p c, Event.wrote p c ∉
      (sync_paths h proj sp dp mode (sync_paths h proj sp dp mode fs).2.fs).2.log := by
  have hmode : mode ≠ Mode.check := by rcases hm2 with rfl | rfl <;> simp
  have hforce : mode ≠ Mode.force := by rcases hm2 with rfl | rfl <;> simp
  have hlist : mode ≠ Mode.list := by rcases hm2 with rfl | rfl <;> simp
  have hne : sp ≠ dp := by
    intro he
    rw [he, pathLeads_refl] at hlead1
    exact absurd hlead1 (by simp)
  have hne2 : dp ≠ sp := fun he => hne he.symm
  rcases hdst : findFile fs.files dp with _ | raw
  · -- no destination file yet
    by_cases hsm : selfMarked σ = true
    · -- the pull write itself fails; nothing is ever written
      have hstepAt : ∀ fs' : FS, findFile fs'.files sp = some σ →
          findFile fs'.files dp = none →
          syncPair h proj mode sp dp { fs := fs', log := [], changed := [] }
            = (Except.error SyncErr.alreadySynced,
                mkdirParents { fs := fs', log := [], changed := [] } dp) := by
        intro fs' h1 h2
        rw [syncPair_missing_dst h proj mode sp dp _ σ h1 h2,
          pullAction_err h proj mode dp σ _ _ hlist (by rw [add_marker, if_pos hsm])]
      rw [run_err_eq h proj sp dp fs σ mode _ _ hmode hsrc hvalid (hstepAt fs hsrc hdst)]
      have hf1 : (mkdirParents { fs := fs, log := [], changed := [] } dp).fs.files
          = fs.files := mkdirParents_files _ _
      refine run_no_writes_of_pair_no_writes h proj sp dp _ σ mode hmode
        (by rw [hf1]; exact hsrc) hvalid ?_
      intro p c
      rw [hstepAt _ (by rw [hf1]; exact hsrc) (by rw [hf1]; exact hdst)]
      exact wrote_not_in_mkdir_st0 _ dp p c
    · -- fresh pull, then a healthy pass
      have hsm2 : selfMarked σ = false := by
        cases hx : selfMarked σ
        · rfl
        · exact absurd hx hsm
      have hstep := syncPair_missing_dst h proj mode sp dp
        { fs := fs, log := [], changed := [] } σ hsrc hdst
      rw [pullAction_write h proj mode dp σ (markedOf h proj σ) _ hlist
        (add_marker_ok h proj σ hsm2)] at hstep
      rw [run_pull_write_eq h proj sp dp fs σ (markedOf h proj σ) mode hmode hsrc hvalid
        hndir hstep]
      have hsrc1 : findFile (doWrite (mkdirParents { fs := fs, log := [], changed := [] } dp)
          dp (markedOf h proj σ)).fs.files sp = some σ := by
        rw [findFile_doWrite, if_neg hne, findFile_mkdirParents]
        exact hsrc
      have hdst1 : findFile (doWrite (mkdirParents { fs := fs, log := [], changed := [] } dp)
          dp (markedOf h proj σ)).fs.files dp = some (markedOf h proj σ) := by
        rw [findFile_doWrite, if_pos rfl]
      exact run_no_writes_of_pair_no_writes h proj sp dp _ σ mode hmode hsrc1 hvalid
        (pair_no_writes_healthy h proj sp dp _ σ mode hclean hproj hsrc1 hnorm hdst1 hforce)
  · -- destination exists
    rcases hdec : get_dst_file_info h raw with e | ⟨m, dh, body⟩
    · -- malformed destination marker: both runs fail before writing
      have hstepAt : ∀ fs' : FS, findFile fs'.files sp = some σ →
          findFile fs'.files dp = some raw →
          syncPair h proj mode sp dp { fs := fs', log := [], changed := [] }
            = (Except.error e, mkdirParents { fs := fs', log := [], changed := [] } dp) :=
        fun fs' h1 h2 => syncPair_decode_err h proj mode sp dp _ σ raw e h1 h2 hforce hdec
      rw [run_err_eq h proj sp dp fs σ mode _ _ hmode hsrc hvalid (hstepAt fs hsrc hdst)]
      have hf1 : (mkdirParents { fs := fs, log := [], changed := [] } dp).fs.files
          = fs.files := mkdirParents_files _ _
      refine run_no_writes_of_pair_no_writes h proj sp dp _ σ mode hmode
        (by rw [hf1]; exact hsrc) hvalid ?_
      intro p c
      rw [hstepAt _ (by rw [hf1]; exact hsrc) (by rw [hf1]; exact hdst)]
      exact wrote_not_in_mkdir_st0 _ dp p c
    · obtain ⟨hbodyn, hdh⟩ := get_dst_body_normalized h raw m dh body hdec
      by_cases hc1 : h σ ≠ m ∧ dh = m
      · -- source changed: pull across
        by_cases hsm : selfMarked σ = true
        · have hstepAt : ∀ fs' : FS, findFile fs'.files sp = some σ →
              findFile fs'.files dp = some raw →
              syncPair h proj mode sp dp { fs := fs', log := [], changed := [] }
                = (Except.error SyncErr.alreadySynced,
                    mkdirParents { fs := fs', log := [], changed := [] } dp) := by
            intro fs' h1 h2
            rw [syncPair_src_changed h proj mode sp dp _ σ raw m dh body h1 h2 hforce hdec
              hc1.1 hc1.2,
              pullAction_err h proj mode dp σ _ _ hlist (by rw [add_marker, if_pos hsm])]
          rw [run_err_eq h proj sp dp fs σ mode _ _ hmode hsrc hvalid (hstepAt fs hsrc hdst)]
          have hf1 : (mkdirParents { fs := fs, log := [], changed := [] } dp).fs.files
              = fs.files := mkdirParents_files _ _
          refine run_no_writes_of_pair_no_writes h proj sp dp _ σ mode hmode
            (by rw [hf1]; exact hsrc) hvalid ?_
          intro p c
          rw [hstepAt _ (by rw [hf1]; exact hsrc) (by rw [hf1]; exact hdst)]
          exact wrote_not_in_mkdir_st0 _ dp p c
        · have hsm2 : selfMarked σ = false := by
            cases hx : selfMarked σ
            · rfl
            · exact absurd hx hsm
          have hstep := syncPair_src_changed h proj mode sp dp
            { fs := fs, log := [], changed := [] } σ raw m dh body hsrc hdst hforce hdec
            hc1.1 hc1.2
          rw [pullAction_write h proj mode dp σ (markedOf h proj σ) _ hlist
            (add_marker_ok h proj σ hsm2)] at hstep
          rw [run_pull_write_eq h proj sp dp fs σ (markedOf h proj σ) mode hmode hsrc hvalid
            hndir hstep]
          have hsrc1 : findFile (doWrite (mkdirParents
              { fs := fs, log := [], changed := [] } dp)
              dp (markedOf h proj σ)).fs.files sp = some σ := by
            rw [findFile_doWrite, if_neg hne, findFile_mkdirParents]
            exact hsrc
          have hdst1 : findFile (doWrite (mkdirParents
              { fs := fs, log := [], changed := [] } dp)
              dp (markedOf h proj σ)).fs.files dp = some (markedOf h proj σ) := by
            rw [findFile_doWrite, if_pos rfl]
          exact run_no_writes_of_pair_no_writes h proj sp dp _ σ mode hmode hsrc1 hvalid
            (pair_no_writes_healthy h proj sp dp _ σ mode hclean hproj hsrc1 hnorm hdst1 hforce)
      · by_cases hc2 : h σ = m ∧ dh ≠ m
        · -- destination changed
          rcases hm2 with rfl | rfl
          · -- PULL: pending conflict in both runs, no write in either
            have hstepAt : ∀ fs' : FS, findFile fs'.files sp = some σ →
                findFile fs'.files dp = some raw →
                syncPair h proj Mode.pull sp dp { fs := fs', log := [], changed := [] }
                  = (Except.ok (), { mkdirParents { fs := fs', log := [], changed := [] } dp with
                      changed := (mkdirParents { fs := fs', log := [], changed := [] } dp).changed
                        ++ [dp] }) :=
              fun fs' h1 h2 => syncPair_dst_changed_pend h proj Mode.pull sp dp _ σ raw m dh
                body h1 h2 (by simp) (by simp) (by simp) hdec hc2.1 hc2.2
            rw [run_pend_eq h proj sp dp fs σ Mode.pull (by simp) hsrc hvalid hndir
              (hstepAt fs hsrc hdst)]
            have hf1 : ({ mkdirParents { fs := fs, log := [], changed := [] } dp with
                changed := (mkdirParents { fs := fs, log := [], changed := [] } dp).changed
                  ++ [dp] } : RunSt).fs.files = fs.files := mkdirParents_files _ _
            refine run_no_writes_of_pair_no_writes h proj sp dp _ σ Mode.pull (by simp)
              (by rw [hf1]; exact hsrc) hvalid ?_
            intro p c
            rw [hstepAt _ (by rw [hf1]; exact hsrc) (by rw [hf1]; exact hdst)]
            show Event.wrote p c ∉ (mkdirParents _ dp).log
            exact wrote_not_in_mkdir_st0 _ dp p c
          · -- FULL: push back, then a healthy pass (or a failing refresh)
            by_cases hsm2 : selfMarked body = true
            · have hstep := syncPair_dst_changed_push_err h proj sp dp
                { fs := fs, log := [], changed := [] } σ raw m dh body
                SyncErr.alreadySynced hsrc hdst hdec hc2.1 hc2.2
                (by rw [add_marker, if_pos hsm2])
              rw [run_err_eq h proj sp dp fs σ Mode.full _ _ (by simp) hsrc hvalid hstep]
              have hsrc1 : findFile (doWrite (mkdirParents
                  { fs := fs, log := [], changed := [] } dp) sp body).fs.files sp
                  = some body := by
                rw [findFile_doWrite, if_pos rfl]
              have hdst1 : findFile (doWrite (mkdirParents
                  { fs := fs, log := [], changed := [] } dp) sp body).fs.files dp
                  = some raw := by
                rw [findFile_doWrite, if_neg hne2, findFile_mkdirParents]
                exact hdst
              have hm1 : m ≠ h body := by
                rw [← hdh]
                exact fun hx => hc2.2 hx.symm
              have hm2 : m ≠ dh := fun hx => hc2.2 hx.symm
              refine run_no_writes_of_pair_no_writes h proj sp dp _ body Mode.full (by simp)
                hsrc1 hvalid ?_
              intro p c
              rw [syncPair_refresh h proj Mode.full sp dp
                { fs := (doWrite (mkdirParents { fs := fs, log := [], changed := [] } dp)
                    sp body).fs, log := [], changed := [] }
                body raw m dh body hsrc1 hdst1 (by simp) hdec hm1 hm2 hdh.symm]
              rw [pullAction_err h proj Mode.full dp body _ _ (by simp)
                (by rw [add_marker, if_pos hsm2])]
              exact wrote_not_in_mkdir_st0 _ dp p c
            · have hsm3 : selfMarked body = false := by
                cases hx : selfMarked body
                · rfl
                · exact absurd hx hsm2
              have hstep := syncPair_dst_changed_push h proj sp dp
                { fs := fs, log := [], changed := [] } σ raw m dh body
                (markedOf h proj body) hsrc hdst hdec hc2.1 hc2.2
                (add_marker_ok h proj body hsm3)
              rw [run_push_eq h proj sp dp fs σ (markedOf h proj body) body hsrc hvalid hndir
                hlead2 hstep]
              have hsrc1 : findFile (doWrite (doWrite (mkdirParents
                  { fs := fs, log := [], changed := [] } dp) sp body) dp
                  (markedOf h proj body)).fs.files sp = some body := by
                rw [findFile_doWrite, if_neg hne, findFile_doWrite, if_pos rfl]
              have hdst1 : findFile (doWrite (doWrite (mkdirParents
                  { fs := fs, log := [], changed := [] } dp) sp body) dp
                  (markedOf h proj body)).fs.files dp = some (markedOf h proj body) := by
                rw [findFile_doWrite, if_pos rfl]
              exact run_no_writes_of_pair_no_writes h proj sp dp _ body Mode.full (by simp)
                hsrc1 hvalid
                (pair_no_writes_healthy h proj sp dp _ body Mode.full hclean hproj hsrc1
                  hbodyn hdst1 (by simp))
        · by_cases hc3 : m ≠ h σ ∧ m ≠ dh
          · by_cases hc4 : h σ = dh
            · -- refresh: like the pull cases
              by_cases hsm : selfMarked σ = true
              · have hstepAt : ∀ fs' : FS, findFile fs'.files sp = some σ →
                    findFile fs'.files dp = some raw →
                    syncPair h proj mode sp dp { fs := fs', log := [], changed := [] }
                      = (Except.error SyncErr.alreadySynced,
                          mkdirParents { fs := fs', log := [], changed := [] } dp) := by
                  intro fs' h1 h2
                  rw [syncPair_refresh h proj mode sp dp _ σ raw m dh body h1 h2 hforce hdec
                    hc3.1 hc3.2 hc4,
                    pullAction_err h proj mode dp σ _ _ hlist (by rw [add_marker, if_pos hsm])]
                rw [run_err_eq h proj sp dp fs σ mode _ _ hmode hsrc hvalid
                  (hstepAt fs hsrc hdst)]
                have hf1 : (mkdirParents { fs := fs, log := [], changed := [] } dp).fs.files
                    = fs.files := mkdirParents_files _ _
                refine run_no_writes_of_pair_no_writes h proj sp dp _ σ mode hmode
                  (by rw [hf1]; exact hsrc) hvalid ?_
                intro p c
                rw [hstepAt _ (by rw [hf1]; exact hsrc) (by rw [hf1]; exact hdst)]
                exact wrote_not_in_mkdir_st0 _ dp p c
              · have hsm2 : selfMarked σ = false := by
                  cases hx : selfMarked σ
                  · rfl
                  · exact absurd hx hsm
                have hstep := syncPair_refresh h proj mode sp dp
                  { fs := fs, log := [], changed := [] } σ raw m dh body hsrc hdst hforce
                  hdec hc3.1 hc3.2 hc4
                rw [pullAction_write h proj mode dp σ (markedOf h proj σ) _ hlist
                  (add_marker_ok h proj σ hsm2)] at hstep
                rw [run_pull_write_eq h proj sp dp fs σ (markedOf h proj σ) mode hmode hsrc
                  hvalid hndir hstep]
                have hsrc1 : findFile (doWrite (mkdirParents
                    { fs := fs, log := [], changed := [] } dp)
                    dp (markedOf h proj σ)).fs.files sp = some σ := by
                  rw [findFile_doWrite, if_neg hne, findFile_mkdirParents]
                  exact hsrc
                have hdst1 : findFile (doWrite (mkdirParents
                    { fs := fs, log := [], changed := [] } dp)
                    dp (markedOf h proj σ)).fs.files dp = some (markedOf h proj σ) := by
                  rw [findFile_doWrite, if_pos rfl]
                exact run_no_writes_of_pair_no_writes h proj sp dp _ σ mode hmode hsrc1
                  hvalid
                  (pair_no_writes_healthy h proj sp dp _ σ mode hclean hproj hsrc1 hnorm
                    hdst1 hforce)
            · -- diverged: both runs abort untouched
              have hstepAt : ∀ fs' : FS, findFile fs'.files sp = some σ →
                  findFile fs'.files dp = some raw →
                  syncPair h proj mode sp dp { fs := fs', log := [], changed := [] }
                    = (Except.error (SyncErr.diverged sp dp),
                        mkdirParents { fs := fs', log := [], changed := [] } dp) :=
                fun fs' h1 h2 => syncPair_diverged h proj mode sp dp _ σ raw m dh body h1 h2
                  hforce hdec hc3.1 hc3.2 hc4
              rw [run_err_eq h proj sp dp fs σ mode _ _ hmode hsrc hvalid
                (hstepAt fs hsrc hdst)]
              have hf1 : (mkdirParents { fs := fs, log := [], changed := [] } dp).fs.files
                  = fs.files := mkdirParents_files _ _
              refine run_no_writes_of_pair_no_writes h proj sp dp _ σ mode hmode
                (by rw [hf1]; exact hsrc) hvalid ?_
              intro p c
              rw [hstepAt _ (by rw [hf1]; exact hsrc) (by rw [hf1]; exact hdst)]
              exact wrote_not_in_mkdir_st0 _ dp p c
          · -- healthy pair: both runs are no-ops
            obtain ⟨hh1, hh2⟩ := hashes_healthy hc1 hc2 hc3
            have hstepAt : ∀ fs' : FS, findFile fs'.files sp = some σ →
                findFile fs'.files dp = some raw →
                syncPair h proj mode sp dp { fs := fs', log := [], changed := [] }
                  = (Except.ok (), mkdirParents { fs := fs', log := [], changed := [] } dp) :=
              fun fs' h1 h2 => syncPair_healthy h proj mode sp dp _ σ raw m dh body h1 h2
                hforce hdec hh1 hh2
            rw [run_noop_eq h proj sp dp fs σ mode hmode hsrc hvalid hndir
              (hstepAt fs hsrc hdst)]
            have hf1 : (mkdirParents { fs := fs, log := [], changed := [] } dp).fs.files
                = fs.files := mkdirParents_files _ _
            refine run_no_writes_of_pair_no_writes h proj sp dp _ σ mode hmode
              (by rw [hf1]; exact hsrc) hvalid ?_
            intro p c
            rw [hstepAt _ (by rw [hf1]; exact hsrc) (by rw [hf1]; exact hdst)]
            exact wrote_not_in_mkdir_st0 _ dp p c

/-- C5 (amended): for a single-file sync whose source content is
newline-normalized, running sync_paths a second time immediately after a
first run performs no file write, in PULL, FULL and LIST modes (FORCE
always rewrites the destination, and FULL with a non-normalized source
keeps writing, so the unqualified claim fails). -/
theorem sync_paths_idempotent (h : String → String) (proj : String)
    (sp dp : FPath) (fs : FS) (σ : String) (mode : Mode)
    (hm : mode = Mode.pull ∨ mode = Mode.full ∨ mode = Mode.list)
    (hclean : HashClean h) (hproj : NoLB proj)
    (hsrc : findFile fs.files sp = some σ) (hnorm : Normalized σ)
    (hvalid : _valid_filename (lastName sp) = Except.ok true)
    (hndir : isDir fs dp = false)
    (hlead1 : pathLeads sp dp = false) (hlead2 : pathLeads dp sp = false) :
    ∀ p c, Event.wrote p c ∉
      (sync_paths h proj sp dp mode (sync_paths h proj sp dp mode fs).2.fs).2.log := by
  rcases hm with rfl | rfl | rfl
  · exact second_run_no_writes_core h proj sp dp fs σ Mode.pull (Or.inl rfl) hclean hproj
      hsrc hnorm hvalid hndir hlead1 hlead2
  · exact second_run_no_writes_core h proj sp dp fs σ Mode.full (Or.inr rfl) hclean hproj
      hsrc hnorm hvalid hndir hlead1 hlead2
  · intro p c hmem
    obtain ⟨-, hlog, -⟩ := list_run_effects h proj sp dp
      (sync_paths h proj sp dp Mode.list fs).2.fs
    obtain ⟨q, hq⟩ := hlog _ hmem
    exact absurd hq (by simp)

/-- Counterexample to the literal reading of C5: the claim quantifies over
every mode, but in FORCE mode the second back-to-back run writes the
destination file again. -/
theorem sync_paths_idempotent_counterexample :
    Event.wrote ["d", "a.py"] (markedOf modelHash "p" "x=1\n") ∈
      (sync_paths modelHash "p" ["s", "a.py"] ["d", "a.py"] Mode.force
        (sync_paths modelHash "p" ["s", "a.py"] ["d", "a.py"] Mode.force
          { files := [(["s", "a.py"], "x=1\n")], dirs := [] }).2.fs).2.log := by
  decide

/-- Witness for `sync_paths_idempotent` at a concrete PULL-mode run. -/
theorem sync_paths_idempotent_witness :
    Event.wrote ["d", "a.py"] "anything" ∉
      (sync_paths modelHash "p" ["s", "a.py"] ["d", "a.py"] Mode.pull
        (sync_paths modelHash "p" ["s", "a.py"] ["d", "a.py"] Mode.pull
          { files := [(["s", "a.py"], "x=1\n")], dirs := [] }).2.fs).2.log :=
  sync_paths_idempotent modelHash "p" ["s", "a.py"] ["d", "a.py"]
    { files := [(["s", "a.py"], "x=1\n")], dirs := [] } "x=1\n" Mode.pull
    (Or.inl rfl) modelHash_clean (by decide) (by decide) (by decide) (by decide)
    (by decide) (by decide) (by decide) ["d", "a.py"] "anything"

/-! ### Aggregate conflict recording over a PULL run -/

/-- The dst-changed branch condition of the loop (line 155 of `sync.py`:
`src_hash == marker_hash and dst_hash != marker_hash`), evaluated
against a filesystem snapshot: both files exist, the destination
decodes, its baseline matches the source hash but not the destination
hash. -/
def conflictB (h : String → String) (fs : FS) (sp dp : FPath) : Bool :=
  match findFile fs.files sp with
  | none => false
  | some σ =>
    match findFile fs.files dp with
    | none => false
    | some raw =>
      match get_dst_file_info h raw with
      | Except.error _ => false
      | Except.ok (m, dh, _) => (h σ = m : Bool) && !(dh = m : Bool)

theorem conflictB_congr (h : String → String) (fs1 fs2 : FS) (sp dp : FPath)
    (h1 : findFile fs1.files sp = findFile fs2.files sp)
    (h2 : findFile fs1.files dp = findFile fs2.files dp) :
    conflictB h fs1 sp dp = conflictB h fs2 sp dp := by
  simp only [conflictB, h1, h2]

theorem wrote_mem_mkdir_log (st : RunSt) (d : FPath) (p : FPath) (c : String)
    (hmem : Event.wrote p c ∈ (mkdirParents st d).log) : Event.wrote p c ∈ st.log := by
  obtain ⟨evs, hl, hm⟩ := mkdirParents_log st d
  rw [hl] at hmem
  rcases List.mem_append.mp hmem with hh | hh
  · exact hh
  · obtain ⟨q, hq⟩ := hm _ hh
    exact absurd hq (by simp)

theorem foldl_prune_changed (mode : Mode) (kps : List FPath) (st : RunSt) :
    (kps.foldl (fun s kp =>
      if pathExists s.fs kp then
        if mode = Mode.list then s
        else { s with fs := removeTree s.fs kp,
                      log := s.log ++ [Event.removedTree kp] }
      else s) st).changed = st.changed := by
  induction kps generalizing st with
  | nil => rfl
  | cons kp rest ih =>
    rw [List.foldl_cons, ih]
    split
    · split <;> rfl
    · rfl

theorem pruneOrphans_changed (mode : Mode) (src dst : FPath) (st : RunSt) :
    (pruneOrphans mode src dst st).changed = st.changed := by
  rw [pruneOrphans]
  split
  · exact foldl_prune_changed mode _ st
  · rfl

/-- Shape of one successful PULL-mode iteration: files change only at
the pair's destination, new write events touch only a non-conflict
destination, and the changed list grows by exactly the conflict
destination. -/
theorem syncPair_pull_shape (h : String → String) (proj : String)
    (s d : FPath) (st : RunSt)
    (hok : (syncPair h proj Mode.pull s d st).1 = Except.ok ()) :
    (∀ q, q ≠ d → findFile (syncPair h proj Mode.pull s d st).2.fs.files q
        = findFile st.fs.files q)
    ∧ (∀ p c, Event.wrote p c ∈ (syncPair h proj Mode.pull s d st).2.log →
        Event.wrote p c ∈ st.log ∨ (p = d ∧ conflictB h st.fs s d = false))
    ∧ (syncPair h proj Mode.pull s d st).2.changed
        = st.changed ++ (if conflictB h st.fs s d = true then [d] else []) := by
  rcases hsrc : findFile st.fs.files s with _ | σ
  · rw [syncPair_no_src h proj Mode.pull s d st hsrc] at hok
    exact absurd hok (by simp)
  · rcases hdst : findFile st.fs.files d with _ | raw
    · have hcb : conflictB h st.fs s d = false := by
        simp only [conflictB, hsrc, hdst]
      by_cases hsm : selfMarked σ = true
      · rw [syncPair_missing_dst h proj Mode.pull s d st σ hsrc hdst,
          pullAction_err h proj Mode.pull d σ _ _ (by simp)
            (by rw [add_marker, if_pos hsm])] at hok
        exact absurd hok (by simp)
      · have hsm2 : selfMarked σ = false := by
          cases hx : selfMarked σ
          · rfl
          · exact absurd hx hsm
        rw [syncPair_missing_dst h proj Mode.pull s d st σ hsrc hdst,
          pullAction_write h proj Mode.pull d σ (markedOf h proj σ) _ (by simp)
            (add_marker_ok h proj σ hsm2)]
        refine ⟨?_, ?_, ?_⟩
        · intro q hq
          dsimp only
          rw [findFile_doWrite, if_neg hq, findFile_mkdirParents]
        · intro p c hmem
          dsimp only at hmem
          rw [doWrite_log] at hmem
          rcases List.mem_append.mp hmem with hh | hh
          · exact Or.inl (wrote_mem_mkdir_log st d p c hh)
          · have heq := List.mem_singleton.mp hh
            simp only [Event.wrote.injEq] at heq
            exact Or.inr ⟨heq.1, hcb⟩
        · dsimp only
          rw [doWrite_changed, mkdirParents_changed, hcb]
          simp
    · rcases hdec : get_dst_file_info h raw with e | ⟨m, dh, body⟩
      · rw [syncPair_decode_err h proj Mode.pull s d st σ raw e hsrc hdst (by simp) hdec]
          at hok
        exact absurd hok (by simp)
      · by_cases hc1 : h σ ≠ m ∧ dh = m
        · have hcb : conflictB h st.fs s d = false := by
            simp only [conflictB, hsrc, hdst, hdec]
            simp [hc1.1]
          by_cases hsm : selfMarked σ = true
          · rw [syncPair_src_changed h proj Mode.pull s d st σ raw m dh body hsrc hdst
              (by simp) hdec hc1.1 hc1.2,
              pullAction_err h proj Mode.pull d σ _ _ (by simp)
                (by rw [add_marker, if_pos hsm])] at hok
            exact absurd hok (by simp)
          · have hsm2 : selfMarked σ = false := by
              cases hx : selfMarked σ
              · rfl
              · exact absurd hx hsm
            rw [syncPair_src_changed h proj Mode.pull s d st σ raw m dh body hsrc hdst
              (by simp) hdec hc1.1 hc1.2,
              pullAction_write h proj Mode.pull d σ (markedOf h proj σ) _ (by simp)
                (add_marker_ok h proj σ hsm2)]
            refine ⟨?_, ?_, ?_⟩
            · intro q hq
              dsimp only
              rw [findFile_doWrite, if_neg hq, findFile_mkdirParents]
            · intro p c hmem
              dsimp only at hmem
              rw [doWrite_log] at hmem
              rcases List.mem_append.mp hmem with hh | hh
              · exact Or.inl (wrote_mem_mkdir_log st d p c hh)
              · have heq := List.mem_singleton.mp hh
                simp only [Event.wrote.injEq] at heq
                exact Or.inr ⟨heq.1, hcb⟩
            · dsimp only
              rw [doWrite_changed, mkdirParents_changed, hcb]
              simp
        · by_cases hc2 : h σ = m ∧ dh ≠ m
          · have hcb : conflictB h st.fs s d = true := by
              simp only [conflictB, hsrc, hdst, hdec]
              simp [hc2.1, hc2.2]
            rw [syncPair_dst_changed_pend h proj Mode.pull s d st σ raw m dh body hsrc hdst
              (by simp) (by simp) (by simp) hdec hc2.1 hc2.2]
            refine ⟨?_, ?_, ?_⟩
            · intro q hq
              dsimp only
              rw [findFile_mkdirParents]
            · intro p c hmem
              dsimp only at hmem
              exact Or.inl (wrote_mem_mkdir_log st d p c hmem)
            · dsimp only
              rw [mkdirParents_changed, hcb]
              simp
          · by_cases hc3 : m ≠ h σ ∧ m ≠ dh
            · by_cases hc4 : h σ = dh
              · have hns : h σ ≠ m := fun he => hc3.1 he.symm
                have hcb : conflictB h st.fs s d = false := by
                  simp only [conflictB, hsrc, hdst, hdec]
                  simp [hns]
                by_cases hsm : selfMarked σ = true
                · rw [syncPair_refresh h proj Mode.pull s d st σ raw m dh body hsrc hdst
                    (by simp) hdec hc3.1 hc3.2 hc4,
                    pullAction_err h proj Mode.pull d σ _ _ (by simp)
                      (by rw [add_marker, if_pos hsm])] at hok
                  exact absurd hok (by simp)
                · have hsm2 : selfMarked σ = false := by
                    cases hx : selfMarked σ
                    · rfl
                    · exact absurd hx hsm
                  rw [syncPair_refresh h proj Mode.pull s d st σ raw m dh body hsrc hdst
                    (by simp) hdec hc3.1 hc3.2 hc4,
                    pullAction_write h proj Mode.pull d σ (markedOf h proj σ) _ (by simp)
                      (add_marker_ok h proj σ hsm2)]
                  refine ⟨?_, ?_, ?_⟩
                  · intro q hq
                    dsimp only
                    rw [findFile_doWrite, if_neg hq, findFile_mkdirParents]
                  · intro p c hmem
                    dsimp only at hmem
                    rw [doWrite_log] at hmem
                    rcases List.mem_append.mp hmem with hh | hh
                    · exact Or.inl (wrote_mem_mkdir_log st d p c hh)
                    · have heq := List.mem_singleton.mp hh
                      simp only [Event.wrote.injEq] at heq
                      exact Or.inr ⟨heq.1, hcb⟩
                  · dsimp only
                    rw [doWrite_changed, mkdirParents_changed, hcb]
                    simp
              · rw [syncPair_diverged h proj Mode.pull s d st σ raw m dh body hsrc hdst
                  (by simp) hdec hc3.1 hc3.2 hc4] at hok
                exact absurd hok (by simp)
            · obtain ⟨hh1, hh2⟩ := hashes_healthy hc1 hc2 hc3
              have hcb : conflictB h st.fs s d = false := by
                simp only [conflictB, hsrc, hdst, hdec]
                simp [hh2]
              rw [syncPair_healthy h proj Mode.pull s d st σ raw m dh body hsrc hdst
                (by simp) hdec hh1 hh2]
              refine ⟨?_, ?_, ?_⟩
              · intro q hq
                dsimp only
                rw [findFile_mkdirParents]
              · intro p c hmem
                dsimp only at hmem
                exact Or.inl (wrote_mem_mkdir_log st d p c hmem)
              · dsimp only
                rw [mkdirParents_changed, hcb]
                simp

/-- Loop-level accounting for PULL mode: when the loop completes without
an exception, the changed list collects exactly the conflict
destinations (judged against the starting snapshot), and every new
write event targets a non-conflict destination. Requires the pairs to
read distinct files: no duplicate destinations and no source that is
also a destination. -/
theorem syncLoop_pull_props (h : String → String) (proj : String) (fs0 : FS)
    (pairs : List (FPath × FPath)) :
    ∀ st : RunSt,
    (syncLoop h proj Mode.pull pairs st).1 = Except.ok () →
    (∀ pr ∈ pairs, findFile st.fs.files pr.1 = findFile fs0.files pr.1
        ∧ findFile st.fs.files pr.2 = findFile fs0.files pr.2) →
    (pairs.map Prod.snd).Nodup →
    (∀ p ∈ pairs, ∀ q ∈ pairs, p.1 ≠ q.2) →
    (syncLoop h proj Mode.pull pairs st).2.changed
        = st.changed
          ++ (pairs.filter (fun pr => conflictB h fs0 pr.1 pr.2)).map Prod.snd
    ∧ ∀ p c, Event.wrote p c ∈ (syncLoop h proj Mode.pull pairs st).2.log →
        Event.wrote p c ∈ st.log
          ∨ ∃ pr ∈ pairs, p = pr.2 ∧ conflictB h fs0 pr.1 pr.2 = false := by
  induction pairs with
  | nil =>
    intro st hok hinv hnd hsep
    constructor
    · rw [show syncLoop h proj Mode.pull [] st = (Except.ok (), st) from rfl]
      simp
    · intro p c hmem
      rw [show syncLoop h proj Mode.pull [] st = (Except.ok (), st) from rfl] at hmem
      exact Or.inl hmem
  | cons hd rest ih =>
    intro st hok hinv hnd hsep
    obtain ⟨s, d⟩ := hd
    have hLcons : syncLoop h proj Mode.pull ((s, d) :: rest) st
        = match syncPair h proj Mode.pull s d st with
          | (Except.error e, st1) => (Except.error e, st1)
          | (Except.ok _, st1) => syncLoop h proj Mode.pull rest st1 := by
      rw [syncLoop]
    rcases hpair : syncPair h proj Mode.pull s d st with ⟨res, st1⟩
    rw [hpair] at hLcons
    rcases res with e | u
    · dsimp only at hLcons
      rw [hLcons] at hok
      exact absurd hok (by simp)
    · dsimp only at hLcons
      have hokp : (syncPair h proj Mode.pull s d st).1 = Except.ok () := by
        rw [hpair]
      obtain ⟨hsh1, hsh2, hsh3⟩ := syncPair_pull_shape h proj s d st hokp
      rw [hpair] at hsh1 hsh2 hsh3
      dsimp only at hsh1 hsh2 hsh3
      obtain ⟨hs0, hd0⟩ := hinv (s, d) (List.mem_cons_self _ _)
      have hcbeq : conflictB h st.fs s d = conflictB h fs0 s d :=
        conflictB_congr h st.fs fs0 s d hs0 hd0
      have hnd' := hnd
      rw [List.map_cons] at hnd'
      have hndr : (rest.map Prod.snd).Nodup := (List.nodup_cons.mp hnd').2
      have hdnotin : d ∉ rest.map Prod.snd := (List.nodup_cons.mp hnd').1
      have hinv1 : ∀ pr ∈ rest, findFile st1.fs.files pr.1 = findFile fs0.files pr.1
          ∧ findFile st1.fs.files pr.2 = findFile fs0.files pr.2 := by
        intro pr hpr
        have hp1 : pr.1 ≠ d :=
          hsep pr (List.mem_cons_of_mem _ hpr) (s, d) (List.mem_cons_self _ _)
        have hp2 : pr.2 ≠ d := by
          intro he
          exact hdnotin (he ▸ List.mem_map_of_mem Prod.snd hpr)
        exact ⟨(hsh1 pr.1 hp1).trans (hinv pr (List.mem_cons_of_mem _ hpr)).1,
          (hsh1 pr.2 hp2).trans (hinv pr (List.mem_cons_of_mem _ hpr)).2⟩
      have hsep1 : ∀ p ∈ rest, ∀ q ∈ rest, p.1 ≠ q.2 := fun p hp q hq =>
        hsep p (List.mem_cons_of_mem _ hp) q (List.mem_cons_of_mem _ hq)
      have hok1 : (syncLoop h proj Mode.pull rest st1).1 = Except.ok () := by
        rw [← hLcons]
        exact hok
      obtain ⟨ihc, ihl⟩ := ih st1 hok1 hinv1 hndr hsep1
      constructor
      · rw [hLcons, ihc, hsh3, hcbeq]
        cases hcb : conflictB h fs0 s d
        · simp [List.filter_cons, hcb]
        · simp [List.filter_cons, hcb]
      · intro p c hmem
        rw [hLcons] at hmem
        rcases ihl p c hmem with hin1 | ⟨pr, hpr, hp, hcb⟩
        · rcases hsh2 p c hin1 with hin0 | ⟨hpd, hcb0⟩
          · exact Or.inl hin0
          · refine Or.inr ⟨(s, d), List.mem_cons_self _ _, hpd, ?_⟩
            rw [← hcbeq]
            exact hcb0
        · exact Or.inr ⟨pr, List.mem_cons_of_mem _ hpr, hp, hcb⟩

/-- C1 (amended): in PULL mode (only — LIST merely prints the would-be
push and records nothing, and CHECK is rejected upfront), every pair
whose source hash equals the marker baseline while the destination
hash differs is recorded as a pending conflict with nothing written to
its destination, and after all pairs are processed the run fails with
one aggregate `changedDstFiles` error listing exactly those
destination paths. -/
theorem sync_paths_pull_conflicts (h : String → String) (proj : String)
    (srcRoot dstRoot : FPath) (fs : FS) (pairs : List (FPath × FPath))
    (hguard : (isDir fs srcRoot || isFile fs srcRoot) = true)
    (hdisc : discover fs srcRoot dstRoot = Except.ok pairs)
    (hloop : (syncLoop h proj Mode.pull pairs { fs := fs, log := [], changed := [] }).1
      = Except.ok ())
    (hnodup : (pairs.map Prod.snd).Nodup)
    (hsep : ∀ p ∈ pairs, ∀ q ∈ pairs, p.1 ≠ q.2)
    (hconf : (pairs.filter (fun pr => conflictB h fs pr.1 pr.2)).map Prod.snd ≠ []) :
    (sync_paths h proj srcRoot dstRoot Mode.pull fs).1
      = Except.error (SyncErr.changedDstFiles
          ((pairs.filter (fun pr => conflictB h fs pr.1 pr.2)).map Prod.snd))
    ∧ ∀ pr ∈ pairs, conflictB h fs pr.1 pr.2 = true →
      ∀ c, Event.wrote pr.2 c ∉ (sync_paths h proj srcRoot dstRoot Mode.pull fs).2.log := by
  obtain ⟨ihc, ihl⟩ := syncLoop_pull_props h proj fs pairs
    { fs := fs, log := [], changed := [] } hloop
    (fun pr _ => ⟨rfl, rfl⟩) hnodup hsep
  rw [sync_paths, if_neg (by simp : ¬ Mode.pull = Mode.check),
    if_neg (by simp [hguard]), hdisc]
  dsimp only
  rcases hL : syncLoop h proj Mode.pull pairs { fs := fs, log := [], changed := [] }
    with ⟨res, stL⟩
  rw [hL] at hloop ihc ihl
  dsimp only at hloop ihc ihl
  rcases res with e | u
  · exact absurd hloop (by simp)
  · dsimp only
    have hch : (pruneOrphans Mode.pull srcRoot dstRoot stL).changed
        = (pairs.filter (fun pr => conflictB h fs pr.1 pr.2)).map Prod.snd := by
      rw [pruneOrphans_changed, ihc]
      simp
    rw [if_neg (by rw [hch]; exact hconf)]
    constructor
    · dsimp only
      rw [hch]
    · intro pr hpr hcb c
      dsimp only
      refine wrote_not_in_prune_log Mode.pull srcRoot dstRoot stL pr.2 c ?_
      intro hmem
      rcases ihl pr.2 c hmem with hin0 | ⟨pr2, hpr2, hp2, hcb2⟩
      · exact absurd hin0 (by simp)
      · have hprs : pr2 = pr := List.inj_on_of_nodup_map hnodup hpr2 hpr hp2.symm
        rw [hprs] at hcb2
        rw [hcb] at hcb2
        exact absurd hcb2 (by simp)

/-- A two-pair snapshot: `s/a.py` conflicts (its destination body was
edited, so the baseline `11` matches the source hash but not the
destination hash `122`), while `s/b.py` is healthy. -/
def fsC1 : FS :=
  { files := [(["s", "a.py"], "x=1\n"), (["s", "b.py"], "y=3\n"),
      (["d", "a.py"], "# Synced from p.\n# EFRO_SYNC_HASH=11\n#\nx=22\n"),
      (["d", "b.py"], "# Synced from p.\n# EFRO_SYNC_HASH=13\n#\ny=3\n")],
    dirs := [] }

/-- Witness for `sync_paths_pull_conflicts` on `fsC1`. -/
theorem sync_paths_pull_conflicts_witness :
    (sync_paths modelHash "p" ["s"] ["d"] Mode.pull fsC1).1
      = Except.error (SyncErr.changedDstFiles
          (([((["s", "a.py"] : FPath), (["d", "a.py"] : FPath)),
              (["s", "b.py"], ["d", "b.py"])].filter
            (fun pr => conflictB modelHash fsC1 pr.1 pr.2)).map Prod.snd))
    ∧ Event.wrote ["d", "a.py"] "anything" ∉
        (sync_paths modelHash "p" ["s"] ["d"] Mode.pull fsC1).2.log := by
  obtain ⟨h1, h2⟩ := sync_paths_pull_conflicts modelHash "p" ["s"] ["d"] fsC1
    [(["s", "a.py"], ["d", "a.py"]), (["s", "b.py"], ["d", "b.py"])]
    (by decide) (by decide) (by decide) (by decide) (by decide) (by decide)
  exact ⟨h1, h2 (["s", "a.py"], ["d", "a.py"]) (by decide) (by decide) "anything"⟩

/-- Counterexample to the literal reading of C1: the same conflicting
snapshot run in LIST mode ends without error and records nothing, and
in CHECK mode `sync_paths` is rejected upfront — so only PULL records
pending conflicts and raises the aggregate error. -/
theorem sync_paths_pull_conflicts_counterexample :
    conflictB modelHash fsC1 ["s", "a.py"] ["d", "a.py"] = true
    ∧ (sync_paths modelHash "p" ["s"] ["d"] Mode.list fsC1).1 = Except.ok 2
    ∧ (sync_paths modelHash "p" ["s"] ["d"] Mode.list fsC1).2.changed = []
    ∧ (sync_paths modelHash "p" ["s"] ["d"] Mode.check fsC1).1
        = Except.error SyncErr.checkModeCall := by
  refine ⟨by decide, by decide, by decide, by decide⟩
